import Mathlib

/-!
# Ambagas: the OCR import pipeline of `src/App.jsx`

A shallow embedding of the candidate extractor (`extractOcrCandidates`), the
review session (`handleFileChange`, `applyOcrToTrip`, `closeOcrReview`) and the
range advisory of `App.jsx`, together with the parts of the JavaScript runtime
these functions rely on: strings as sequences of UTF-16 code units, the Number
type, `Number(string)`, `String(number)` and backtracking regular expressions.
-/

namespace Ambagas

/-! ## JavaScript strings -/

/-- A JavaScript string: its sequence of UTF-16 code units. -/
abbrev JSString := List Nat

/-- The UTF-16 code units of one Unicode scalar value. -/
def utf16Char (c : Char) : List Nat :=
  if c.toNat < 65536 then [c.toNat]
  else [55296 + (c.toNat - 65536) / 1024, 56320 + (c.toNat - 65536) % 1024]

/-- The JavaScript string written by a Lean string literal. -/
def js (s : String) : JSString :=
  s.toList.flatMap utf16Char

/-- The class `\d`: an ASCII decimal digit. -/
def isDigit (c : Nat) : Bool :=
  decide (48 ≤ c) && decide (c ≤ 57)

/-- The class `\s`, which is also what `trim` strips: ECMAScript WhiteSpace and
LineTerminator code units. -/
def isSpace (c : Nat) : Bool :=
  c == 9 || c == 10 || c == 11 || c == 12 || c == 13 || c == 32 || c == 160 ||
  c == 5760 || (decide (8192 ≤ c) && decide (c ≤ 8202)) || c == 8232 || c == 8233 ||
  c == 8239 || c == 8287 || c == 12288 || c == 65279

/-- A word character for `\b`: `[A-Za-z0-9_]`. -/
def isWordChar (c : Nat) : Bool :=
  (decide (97 ≤ c) && decide (c ≤ 122)) || (decide (65 ≤ c) && decide (c ≤ 90)) ||
  isDigit c || c == 95

/-- The effect of `replace(/\s+/g, " ")` after the first unit of a run has been
seen: `inRun` says whether the previous unit was white space. -/
def collapseAux : Bool → List Nat → List Nat
  | _, [] => []
  | inRun, c :: cs =>
    if isSpace c then
      if inRun then collapseAux true cs else 32 :: collapseAux true cs
    else c :: collapseAux false cs

/-- The call `s.replace(/\s+/g, " ")`: every maximal run of white space becomes
one space. -/
def collapseSpaces (s : JSString) : JSString :=
  collapseAux false s

/-- The call `s.trim()`. -/
def trim (s : JSString) : JSString :=
  ((s.dropWhile isSpace).reverse.dropWhile isSpace).reverse

/-- Lower-casing of one code unit. ASCII capitals are lowered; U+212A (Kelvin
sign) becomes `k` and U+0130 becomes `i` followed by U+0307, the only mappings
of `toLowerCase` that reach ASCII or change the length. Every other unit is kept:
its real image is again a single non-ASCII, non-space unit, and the patterns
below tell such units apart from nothing. -/
def lowerUnit (c : Nat) : List Nat :=
  if decide (65 ≤ c) && decide (c ≤ 90) then [c + 32]
  else if c == 8490 then [107]
  else if c == 304 then [105, 775]
  else [c]

/-- The call `s.toLowerCase()`. -/
def toLowerCase (s : JSString) : JSString :=
  s.flatMap lowerUnit

/-- The call `s.slice(a, b)` for `0 ≤ a` and `0 ≤ b`. -/
def slice (s : JSString) (a b : Nat) : JSString :=
  (s.take b).drop a

/-! ## JavaScript numbers -/

/-- A Number value. `fin v` is the double whose exact value is `v`; the two
zeros are one value here, as `<`, `>`, `Number.isFinite`, `String` and `Set`
membership do not tell them apart. -/
inductive JSNum where
  | nan
  | posInf
  | negInf
  | fin (v : ℚ)
  deriving DecidableEq, Repr

namespace JSNum

/-- The test `Number.isFinite(x)`. -/
def isFinite : JSNum → Bool
  | fin _ => true
  | _ => false

/-- The comparison `a < b`. -/
def lt : JSNum → JSNum → Bool
  | nan, _ => false
  | _, nan => false
  | posInf, _ => false
  | _, negInf => false
  | negInf, _ => true
  | _, posInf => true
  | fin a, fin b => decide (a < b)

/-- The comparison `a > b`. -/
def gt (a b : JSNum) : Bool :=
  lt b a

/-- Truthiness of a number: everything but `0` and `NaN`. -/
def truthy : JSNum → Bool
  | nan => false
  | fin v => decide (v ≠ 0)
  | _ => true

/-- The value of `x || 0` for a number `x`. -/
def orZero (x : JSNum) : JSNum :=
  if x.truthy then x else fin 0

end JSNum

/-- Halving `n` until it is below 2, at most `fuel` times: the number of halvings. -/
def log2Aux : Nat → Nat → Nat
  | 0, _ => 0
  | fuel + 1, n => if n < 2 then 0 else log2Aux fuel (n / 2) + 1

/-- The integer `⌊log₂ n⌋` for `n > 0` (and `0` for `n = 0`). -/
def log2 (n : Nat) : Nat :=
  log2Aux n n

/-- Whether `2 ^ e ≤ n / d`, for `d > 0`. -/
def pow2Le (e : Int) (n d : Nat) : Bool :=
  match e with
  | Int.ofNat k => decide (d * 2 ^ k ≤ n)
  | Int.negSucc k => decide (d ≤ n * 2 ^ (k + 1))

/-- The integer `⌊log₂ (n / d)⌋` for `n, d > 0`. -/
def floorLog2 (n d : Nat) : Int :=
  let e : Int := (log2 n : Int) - (log2 d : Int)
  if pow2Le e n d then e else e - 1

/-- The integer nearest `n / d`, ties to the even one. -/
def roundHalfEven (n d : Nat) : Nat :=
  let q := n / d
  let r := n % d
  if 2 * r < d then q
  else if d < 2 * r then q + 1
  else if q % 2 = 0 then q else q + 1

/-- Rounding of a positive rational `n / d` to binary64, round-to-nearest, ties
to even: 53 significant bits, least exponent `-1074`, overflow to `+∞`. -/
def roundPos (n d : Nat) : JSNum :=
  let p : Int := max (floorLog2 n d - 52) (-1074)
  match p with
  | Int.ofNat k =>
    let m := roundHalfEven n (d * 2 ^ k)
    if 2 ^ 1024 ≤ m * 2 ^ k then JSNum.posInf else JSNum.fin ((m * 2 ^ k : Nat) : ℚ)
  | Int.negSucc k =>
    let m := roundHalfEven (n * 2 ^ (k + 1)) d
    JSNum.fin (mkRat (m : Int) (2 ^ (k + 1)))

/-- The Number value of a real (here rational) number. -/
def roundToDouble (q : ℚ) : JSNum :=
  if q = 0 then JSNum.fin 0
  else if 0 < q then roundPos q.num.natAbs q.den
  else
    match roundPos q.num.natAbs q.den with
    | JSNum.fin v => JSNum.fin (-v)
    | _ => JSNum.negInf

namespace JSNum

/-- The product `a * b`. -/
def mul : JSNum → JSNum → JSNum
  | nan, _ => nan
  | _, nan => nan
  | fin a, fin b => roundToDouble (a * b)
  | fin a, posInf => if a = 0 then nan else if 0 < a then posInf else negInf
  | fin a, negInf => if a = 0 then nan else if 0 < a then negInf else posInf
  | posInf, fin b => if b = 0 then nan else if 0 < b then posInf else negInf
  | negInf, fin b => if b = 0 then nan else if 0 < b then negInf else posInf
  | posInf, posInf => posInf
  | negInf, negInf => posInf
  | posInf, negInf => negInf
  | negInf, posInf => negInf

/-- The call `Math.round(x)`: the nearest integer, ties upward. -/
def round : JSNum → JSNum
  | fin v => fin ((Int.floor (v + 1 / 2) : Int) : ℚ)
  | x => x

end JSNum

/-! ## `Number(string)` -/

/-- The value of a string of decimal digits. -/
def digitsValue (ds : List Nat) : Nat :=
  ds.foldl (fun a c => 10 * a + (c - 48)) 0

/-- The value of a code unit as a digit of the given radix, if it is one. -/
def radixDigit (radix c : Nat) : Option Nat :=
  let v :=
    if isDigit c then some (c - 48)
    else if decide (97 ≤ c) && decide (c ≤ 102) then some (c - 87)
    else if decide (65 ≤ c) && decide (c ≤ 70) then some (c - 55)
    else none
  match v with
  | some d => if d < radix then some d else none
  | none => none

/-- The value of a non-empty string of digits of the given radix. -/
def radixValue (radix : Nat) : List Nat → Option Nat
  | [] => none
  | ds => ds.foldl (fun a c =>
      match a, radixDigit radix c with
      | some v, some d => some (radix * v + d)
      | _, _ => none) (some 0)

/-- A NonDecimalIntegerLiteral: `0b…`, `0o…` or `0x…`, the prefix letter in
either case. -/
def nonDecimalLiteral : JSString → Option Nat
  | 48 :: x :: ds =>
    if x = 98 ∨ x = 66 then radixValue 2 ds
    else if x = 111 ∨ x = 79 then radixValue 8 ds
    else if x = 120 ∨ x = 88 then radixValue 16 ds
    else none
  | _ => none

/-- An optional ExponentPart that must reach the end of the string: its value,
or `none` when the text is not one. -/
def exponentPart : JSString → Option Int
  | [] => some 0
  | x :: r =>
    if x = 101 ∨ x = 69 then
      match r with
      | 43 :: ds => if ds ≠ [] ∧ ds.all isDigit then some (digitsValue ds : Int) else none
      | 45 :: ds => if ds ≠ [] ∧ ds.all isDigit then some (-(digitsValue ds : Int)) else none
      | ds => if ds ≠ [] ∧ ds.all isDigit then some (digitsValue ds : Int) else none
    else none

/-- The rational `s × 10 ^ e`. -/
def decValue (s : Nat) (e : Int) : ℚ :=
  match e with
  | Int.ofNat k => ((s * 10 ^ k : Nat) : ℚ)
  | Int.negSucc k => mkRat (s : Int) (10 ^ (k + 1))

/-- A StrUnsignedDecimalLiteral: `Infinity`, or digits with an optional
fraction and exponent; `NaN` for any other text. -/
def strUnsignedDecimal (t : JSString) : JSNum :=
  if t = js "Infinity" then JSNum.posInf
  else
    let ip := t.takeWhile isDigit
    let r1 := t.dropWhile isDigit
    let fp := match r1 with
      | 46 :: r => r.takeWhile isDigit
      | _ => []
    let r2 := match r1 with
      | 46 :: r => r.dropWhile isDigit
      | _ => r1
    if ip = [] ∧ fp = [] then JSNum.nan
    else
      match exponentPart r2 with
      | none => JSNum.nan
      | some e => roundToDouble (decValue (digitsValue (ip ++ fp)) (e - fp.length))

/-- The negation `-x`. -/
def JSNum.neg : JSNum → JSNum
  | JSNum.nan => JSNum.nan
  | JSNum.posInf => JSNum.negInf
  | JSNum.negInf => JSNum.posInf
  | JSNum.fin v => JSNum.fin (-v)

/-- The conversion `Number(s)` of a string (StringToNumber): white space is
trimmed, the empty string is `0`, and the rest must be one numeric literal. -/
def toNumber (s : JSString) : JSNum :=
  let t := trim s
  if t = [] then JSNum.fin 0
  else
    match nonDecimalLiteral t with
    | some n => roundToDouble (n : ℚ)
    | none =>
      match t with
      | 43 :: r => strUnsignedDecimal r
      | 45 :: r => (strUnsignedDecimal r).neg
      | _ => strUnsignedDecimal t

/-! ## `String(number)` -/

/-- Decimal digits of `n`, most significant first, with at most `fuel` further
divisions. -/
def natDigitsAux : Nat → Nat → List Nat → List Nat
  | 0, n, acc => (48 + n % 10) :: acc
  | fuel + 1, n, acc =>
    if n < 10 then (48 + n) :: acc
    else natDigitsAux fuel (n / 10) ((48 + n % 10) :: acc)

/-- The decimal digits of `n` as code units. -/
def natDigits (n : Nat) : List Nat :=
  natDigitsAux (log2 n) n []

/-- The least `j` from the given one on with `d ≤ n * 10 ^ j`, within `fuel` steps. -/
def negExp : Nat → Nat → Nat → Nat → Nat
  | 0, _, _, j => j
  | fuel + 1, n, d, j => if d ≤ n * 10 ^ j then j else negExp fuel n d (j + 1)

/-- The integer `⌊log₁₀ (n / d)⌋` for `n, d > 0`. -/
def floorLog10 (n d : Nat) : Int :=
  if d ≤ n then ((natDigits (n / d)).length : Int) - 1
  else -((negExp (log2 d + 1) n d 1 : Nat) : Int)

/-- The integer `⌊(n / d) / 10 ^ e⌋`. -/
def scaledFloor (n d : Nat) (e : Int) : Nat :=
  match e with
  | Int.ofNat k => n / (d * 10 ^ k)
  | Int.negSucc k => (n * 10 ^ (k + 1)) / d

/-- The digits `s` and the exponent `n` of Number::toString for a positive
double `x`, trying `k`, `k + 1`, … significant digits: the first `k` for which
some `s × 10 ^ (n - k)` with `10 ^ (k - 1) ≤ s < 10 ^ k` converts back to `x`,
and for that `k` the `s` nearest `x` (the even one on a tie). The candidates
for a given `k` are the two `k`-digit decimals around `x`. Seventeen digits
always convert back, so the search from `k = 1` with fuel 17 ends before the
fuel does. -/
def shortestDigits (x : ℚ) (n0 : Int) : Nat → Nat → Nat × Int
  | 0, k => (scaledFloor x.num.natAbs x.den (n0 - k), n0)
  | fuel + 1, k =>
    let lo := scaledFloor x.num.natAbs x.den (n0 - k)
    let hi : Nat × Int := if lo + 1 < 10 ^ k then (lo + 1, n0) else (10 ^ (k - 1), n0 + 1)
    let vlo := decValue lo (n0 - k)
    let vhi := decValue hi.1 (hi.2 - k)
    let okLo := decide (roundToDouble vlo = JSNum.fin x)
    let okHi := decide (roundToDouble vhi = JSNum.fin x)
    if okLo && okHi then
      if x - vlo < vhi - x then (lo, n0)
      else if vhi - x < x - vlo then hi
      else if lo % 2 = 0 then (lo, n0) else hi
    else if okLo then (lo, n0)
    else if okHi then hi
    else shortestDigits x n0 fuel (k + 1)

/-- The layout of Number::toString from the digits `ds` (there are `k` of them)
and the exponent `n`. -/
def layoutDigits (ds : List Nat) (n : Int) : JSString :=
  let k : Int := ds.length
  if k ≤ n ∧ n ≤ 21 then ds ++ List.replicate (n - k).toNat 48
  else if 0 < n ∧ n ≤ 21 then ds.take n.toNat ++ 46 :: ds.drop n.toNat
  else if -6 < n ∧ n ≤ 0 then 48 :: 46 :: (List.replicate (-n).toNat 48 ++ ds)
  else
    let e := n - 1
    let ex := (if 0 ≤ e then 43 else 45) :: natDigits e.natAbs
    match ds with
    | [d] => d :: 101 :: ex
    | d :: more => d :: 46 :: (more ++ 101 :: ex)
    | [] => 101 :: ex

/-- Number::toString of a positive double. -/
def positiveToString (x : ℚ) : JSString :=
  let n0 := floorLog10 x.num.natAbs x.den + 1
  let r := shortestDigits x n0 17 1
  layoutDigits (natDigits r.1) r.2

/-- The conversion `String(x)` of a number. -/
def numberToString : JSNum → JSString
  | JSNum.nan => js "NaN"
  | JSNum.posInf => js "Infinity"
  | JSNum.negInf => js "-Infinity"
  | JSNum.fin v =>
    if v = 0 then js "0"
    else if v < 0 then 45 :: positiveToString (-v)
    else positiveToString v

/-! ## Regular expressions

The patterns of `App.jsx` use literals, the classes `\d`, `\s` and `[:=]`, the
greedy quantifiers `*`, `+` on a class and `?` on a group, alternation, one
capturing group and `\b`. A pattern is run as a backtracking matcher: from a
state it yields every way to match, in the order in which the engine tries
them, so the head of that list is the match the engine reports. -/

/-- A character class. -/
inductive CharClass where
  | digit
  | space
  | anyOf (cs : List Nat)
  deriving DecidableEq, Repr

/-- Membership of a code unit in a class. -/
def CharClass.test : CharClass → Nat → Bool
  | CharClass.digit, c => isDigit c
  | CharClass.space, c => isSpace c
  | CharClass.anyOf cs, c => cs.contains c

/-- A regular expression. -/
inductive Regex where
  | eps
  | chr (c : Nat)
  | cls (k : CharClass)
  | seq (a b : Regex)
  | alt (a b : Regex)
  | star (k : CharClass)
  | plus (k : CharClass)
  | opt (r : Regex)
  | group (r : Regex)
  | wordB
  deriving DecidableEq, Repr

/-- The literal for one character. -/
def Regex.ch (c : Char) : Regex :=
  Regex.chr c.toNat

/-- The concatenation of a list of patterns. -/
def Regex.cat : List Regex → Regex
  | [] => Regex.eps
  | [r] => r
  | r :: rs => Regex.seq r (Regex.cat rs)

/-- The literal for a string. -/
def Regex.str (s : String) : Regex :=
  Regex.cat ((js s).map Regex.chr)

/-- Canonicalize of the `i` flag, on the ASCII letters the patterns are written
with: a small letter stands for its capital. -/
def canonicalize (ignoreCase : Bool) (c : Nat) : Nat :=
  if ignoreCase && (decide (97 ≤ c) && decide (c ≤ 122)) then c - 32 else c

/-- A state of the matcher: the index reached, the unit before it, the units
from it on, and what group 1 has captured. -/
structure MState where
  pos : Nat
  prev : Option Nat
  rest : List Nat
  cap : Option JSString
  deriving DecidableEq, Repr

/-- The ways a greedy `k*` can match at the given position: the longest run
first, then each shorter one. -/
def starRun (k : CharClass) (pos : Nat) (prev : Option Nat) (cap : Option JSString) :
    List Nat → List MState
  | [] => [⟨pos, prev, [], cap⟩]
  | c :: cs =>
    if k.test c then starRun k (pos + 1) (some c) cap cs ++ [⟨pos, prev, c :: cs, cap⟩]
    else [⟨pos, prev, c :: cs, cap⟩]

/-- Whether `\b` holds in a state. -/
def atWordBoundary (s : MState) : Bool :=
  let a := match s.prev with
    | some c => isWordChar c
    | none => false
  let b := match s.rest with
    | c :: _ => isWordChar c
    | [] => false
  a != b

/-- Every way the pattern matches from a state, in backtracking order. The
bodies put under `?` here always consume a character, so the empty check of
the quantifier never applies. -/
def Regex.run (ignoreCase : Bool) : Regex → MState → List MState
  | Regex.eps, s => [s]
  | Regex.chr c, s =>
    match s.rest with
    | x :: xs =>
      if canonicalize ignoreCase x = canonicalize ignoreCase c then
        [⟨s.pos + 1, some x, xs, s.cap⟩]
      else []
    | [] => []
  | Regex.cls k, s =>
    match s.rest with
    | x :: xs => if k.test x then [⟨s.pos + 1, some x, xs, s.cap⟩] else []
    | [] => []
  | Regex.seq a b, s => (Regex.run ignoreCase a s).flatMap (fun t => Regex.run ignoreCase b t)
  | Regex.alt a b, s => Regex.run ignoreCase a s ++ Regex.run ignoreCase b s
  | Regex.star k, s => starRun k s.pos s.prev s.cap s.rest
  | Regex.plus k, s =>
    match s.rest with
    | x :: xs => if k.test x then starRun k (s.pos + 1) (some x) s.cap xs else []
    | [] => []
  | Regex.opt r, s => Regex.run ignoreCase r s ++ [s]
  | Regex.group r, s =>
    (Regex.run ignoreCase r s).map
      (fun t => { t with cap := some (s.rest.take (t.pos - s.pos)) })
  | Regex.wordB, s => if atWordBoundary s then [s] else []

/-- A successful match: `index` is where it starts, `last` the state at its end
(`last.pos` is the new `lastIndex`, `last.cap` is `match[1]`). -/
structure RegexMatch where
  index : Nat
  last : MState
  deriving DecidableEq, Repr

/-- The leftmost match starting at the given position or later. -/
def searchFrom (ignoreCase : Bool) (r : Regex) (pos : Nat) (prev : Option Nat) :
    List Nat → Option RegexMatch
  | [] =>
    match (r.run ignoreCase ⟨pos, prev, [], none⟩).head? with
    | some t => some ⟨pos, t⟩
    | none => none
  | c :: cs =>
    match (r.run ignoreCase ⟨pos, prev, c :: cs, none⟩).head? with
    | some t => some ⟨pos, t⟩
    | none => searchFrom ignoreCase r (pos + 1) (some c) cs

/-- The call `pattern.test(s)` of a pattern without the `g` flag. -/
def Regex.test (ignoreCase : Bool) (r : Regex) (s : JSString) : Bool :=
  (searchFrom ignoreCase r 0 none s).isSome

/-- The loop `while ((match = pattern.exec(s)) !== null)` of a pattern with the
`g` flag, from the state at `lastIndex`: the matches in the order found. Each
round starts where the last match ended; the loop runs for as long as `exec`
finds a match, and `none` is a loop that has not ended after `fuel` rounds. -/
def execAll (ignoreCase : Bool) (r : Regex) : Nat → MState → Option (List RegexMatch)
  | 0, _ => none
  | fuel + 1, s =>
    match searchFrom ignoreCase r s.pos s.prev s.rest with
    | none => some []
    | some m =>
      match execAll ignoreCase r fuel ⟨m.last.pos, m.last.prev, m.last.rest, none⟩ with
      | some ms => some (m :: ms)
      | none => none

/-! ## `extractOcrCandidates` -/

/-- The sub-pattern `(\d+(?:\.\d+)?)`. -/
def numberGroup : Regex :=
  Regex.group (Regex.cat [Regex.plus CharClass.digit,
    Regex.opt (Regex.cat [Regex.ch '.', Regex.plus CharClass.digit])])

/-- The sub-pattern `(?:km\s*\/\s*l|km\s*per\s*l)`. -/
def kplUnit : Regex :=
  Regex.alt
    (Regex.cat [Regex.str "km", Regex.star CharClass.space, Regex.ch '/',
      Regex.star CharClass.space, Regex.ch 'l'])
    (Regex.cat [Regex.str "km", Regex.star CharClass.space, Regex.str "per",
      Regex.star CharClass.space, Regex.ch 'l'])

/-- The sub-pattern `\s*[:=]?\s*`. -/
def separator : List Regex :=
  [Regex.star CharClass.space, Regex.opt (Regex.cls (CharClass.anyOf (js ":="))),
    Regex.star CharClass.space]

/-- The pattern `/(\d+(?:\.\d+)?)\s*(?:km\s*\/\s*l|km\s*per\s*l)/gi`. -/
def kplPattern1 : Regex :=
  Regex.cat [numberGroup, Regex.star CharClass.space, kplUnit]

/-- The pattern `/(?:km\s*\/\s*l|km\s*per\s*l)\s*[:=]?\s*(\d+(?:\.\d+)?)/gi`. -/
def kplPattern2 : Regex :=
  Regex.cat (kplUnit :: separator ++ [numberGroup])

/-- The pattern `/(\d+(?:\.\d+)?)\s*km\b/gi`. -/
def distancePattern1 : Regex :=
  Regex.cat [numberGroup, Regex.star CharClass.space, Regex.str "km", Regex.wordB]

/-- The pattern `/(?:distance|trip)\s*[:=]?\s*(\d+(?:\.\d+)?)/gi`. -/
def distancePattern2 : Regex :=
  Regex.cat (Regex.alt (Regex.str "distance") (Regex.str "trip") :: separator ++ [numberGroup])

/-- The pattern `/\/\s*l|per\s*l|km\/l|km l/`. -/
def markerPattern : Regex :=
  Regex.alt (Regex.cat [Regex.ch '/', Regex.star CharClass.space, Regex.ch 'l'])
    (Regex.alt (Regex.cat [Regex.str "per", Regex.star CharClass.space, Regex.ch 'l'])
      (Regex.alt (Regex.str "km/l") (Regex.str "km l")))

/-- The value `Number(match[1])`. -/
def matchNumber (m : RegexMatch) : JSNum :=
  match m.last.cap with
  | some t => toNumber t
  | none => JSNum.nan

/-- The matches of a `g` pattern over the whole of `lower`, `lastIndex` being 0
at first; the text has `lower.length + 1` positions at which a round can start. -/
def allMatches (r : Regex) (lower : JSString) : Option (List RegexMatch) :=
  execAll true r (lower.length + 1) ⟨0, none, lower, none⟩

/-- The numbers pushed to `kmPerLiterCandidates` by the two loops over
`kplPatterns`. -/
def collectKmPerLiter (lower : JSString) : Option (List JSNum) :=
  match allMatches kplPattern1 lower, allMatches kplPattern2 lower with
  | some m1, some m2 => some ((m1 ++ m2).map matchNumber)
  | _, _ => none

/-- The window test of a distance match: whether
`lower.slice(Math.max(0, match.index - 8), match.index + 12)` holds an
efficiency marker. -/
def nearMarker (lower : JSString) (m : RegexMatch) : Bool :=
  markerPattern.test false (slice lower (m.index - 8) (m.index + 12))

/-- The numbers pushed to `distanceCandidates` by the two loops over
`distancePatterns`. -/
def collectDistance (lower : JSString) : Option (List JSNum) :=
  match allMatches distancePattern1 lower, allMatches distancePattern2 lower with
  | some m1, some m2 =>
    some (((m1 ++ m2).filter (fun m => !nearMarker lower m)).map matchNumber)
  | _, _ => none

/-- Adding a value to a `Set` that keeps insertion order. -/
def setAdd (acc : List JSNum) (x : JSNum) : List JSNum :=
  if x ∈ acc then acc else acc ++ [x]

/-- The helper `unique`: `[...new Set(arr.filter((n) => Number.isFinite(n) && n > 0))]`. -/
def unique (arr : List JSNum) : List JSNum :=
  (arr.filter (fun n => n.isFinite && n.gt (JSNum.fin 0))).foldl setAdd []

/-- The object returned by `extractOcrCandidates`. -/
structure OcrCandidates where
  rawText : JSString
  kmPerLiterCandidates : List JSNum
  distanceCandidates : List JSNum
  deriving DecidableEq, Repr

/-- The text `rawText.replace(/\s+/g, " ").trim()`. -/
def normalizeText (rawText : JSString) : JSString :=
  trim (collapseSpaces rawText)

/-- The function `extractOcrCandidates`; `none` stands for a call that does not
return because one of its matching loops does not end. -/
def extractOcrCandidates (rawText : JSString) : Option OcrCandidates :=
  let text := normalizeText rawText
  let lower := toLowerCase text
  match collectKmPerLiter lower, collectDistance lower with
  | some kpl, some dist =>
    some { rawText := text, kmPerLiterCandidates := unique kpl, distanceCandidates := unique dist }
  | _, _ => none

/-! ## The review session -/

/-- A trip record. -/
structure Trip where
  id : JSString
  date : JSString
  label : JSString
  kmPerLiter : JSString
  distanceKm : JSString
  deriving DecidableEq, Repr

/-- The function `makeTrip`; `crypto.randomUUID()` and `todayISO()` are read
from the environment and passed in. -/
def makeTrip (uuid today : JSString) : Trip :=
  { id := uuid, date := today, label := [], kmPerLiter := [], distanceKm := [] }

/-- The object held in `ocrState.extracted`: the extractor's result and the two
chosen values. -/
structure Extracted where
  rawText : JSString
  kmPerLiterCandidates : List JSNum
  distanceCandidates : List JSNum
  kmPerLiter : JSString
  distanceKm : JSString
  deriving DecidableEq, Repr

/-- The state `ocrState`; `none` is `null`. -/
structure OcrState where
  running : Bool
  progress : JSNum
  targetTripId : Option JSString
  extracted : Option Extracted
  confidence : Option JSNum
  message : JSString
  deriving DecidableEq, Repr

/-- The initial `ocrState`, which is also what `closeOcrReview` sets. -/
def idleState : OcrState :=
  { running := false, progress := JSNum.fin 0, targetTripId := none, extracted := none,
    confidence := none, message := [] }

/-- The function `closeOcrReview`. -/
def closeOcrReview (_ : OcrState) : OcrState :=
  idleState

/-- The state update of `openFilePicker(targetTripId)`. -/
def openFilePicker (targetTripId : JSString) (s : OcrState) : OcrState :=
  if s.running then s
  else { s with targetTripId := some targetTripId, message := [], extracted := none }

/-- A message passed to the `logger` callback; `progress` may be undefined. -/
structure LoggerMessage where
  status : JSString
  progress : Option JSNum
  deriving DecidableEq, Repr

/-- The object `result.data`; either field may be undefined. -/
structure RecognizeData where
  text : Option JSString
  confidence : Option JSNum
  deriving DecidableEq, Repr

/-- What the two awaited steps of `handleFileChange` do: `preprocessImage`
rejects, or `Tesseract.recognize` rejects after some logger calls, or it
resolves after some logger calls, with or without `data`. -/
inductive Recognition where
  | imageFailed
  | engineFailed (log : List LoggerMessage)
  | resolved (log : List LoggerMessage) (data : Option RecognizeData)
  deriving DecidableEq, Repr

/-- The `logger` callback. -/
def onLoggerMessage (s : OcrState) (m : LoggerMessage) : OcrState :=
  if m.status = js "recognizing text" then
    { s with progress :=
        (JSNum.mul (match m.progress with
          | some p => p.orZero
          | none => JSNum.fin 0) (JSNum.fin 100)).round }
  else s

/-- The state set in the `catch` block. -/
def recognitionFailed (s : OcrState) : OcrState :=
  { s with
    running := false
    extracted := some { rawText := [], kmPerLiterCandidates := [], distanceCandidates := [],
                        kmPerLiter := [], distanceKm := [] }
    confidence := some (JSNum.fin 0)
    message := js "Couldn't detect, please input manually." }

/-- The value `list[0] ? String(list[0]) : ""`. -/
def prefill (candidates : List JSNum) : JSString :=
  match candidates with
  | x :: _ => if x.truthy then numberToString x else []
  | [] => []

/-- The state set at the end of the `try` block. -/
def recognitionDone (extracted : OcrCandidates) (confidence : JSNum) (s : OcrState) : OcrState :=
  let noValueFound :=
    extracted.kmPerLiterCandidates.length == 0 && extracted.distanceCandidates.length == 0
  { s with
    running := false
    extracted := some {
      rawText := extracted.rawText
      kmPerLiterCandidates := extracted.kmPerLiterCandidates
      distanceCandidates := extracted.distanceCandidates
      kmPerLiter := prefill extracted.kmPerLiterCandidates
      distanceKm := prefill extracted.distanceCandidates }
    confidence := some confidence
    message :=
      if confidence.lt (JSNum.fin 50) || noValueFound then
        js "Could not confidently detect values. Please input manually."
      else [] }

/-- The function `handleFileChange` as a transition of `ocrState`: `hasFile`
says whether `event.target.files` holds a file. `none` stands for a call that
never settles. The reset of the file input in `finally` is outside `ocrState`. -/
def handleFileChange (hasFile : Bool) (r : Recognition) (s : OcrState) : Option OcrState :=
  if !hasFile then some s
  else
    let started : OcrState :=
      { s with running := true, progress := JSNum.fin 0, message := [], extracted := none,
               confidence := none }
    match r with
    | Recognition.imageFailed => some (recognitionFailed started)
    | Recognition.engineFailed log => some (recognitionFailed (log.foldl onLoggerMessage started))
    | Recognition.resolved log none =>
      some (recognitionFailed (log.foldl onLoggerMessage started))
    | Recognition.resolved log (some data) =>
      match extractOcrCandidates (match data.text with
          | some t => t
          | none => []) with
      | none => none
      | some extracted =>
        let confidence := match data.confidence with
          | some c => c.orZero
          | none => JSNum.fin 0
        some (recognitionDone extracted confidence (log.foldl onLoggerMessage started))

/-- The function `applyOcrToTrip` as a transition of `ocrState` and `trips`;
`uuid` and `today` are what `makeTrip` would read. -/
def applyOcrToTrip (uuid today : JSString) (ocrState : OcrState) (trips : List Trip) :
    OcrState × List Trip :=
  match ocrState.extracted with
  | none => (ocrState, trips)
  | some extracted =>
    let kpl := toNumber extracted.kmPerLiter
    let dist := toNumber extracted.distanceKm
    if !(kpl.gt (JSNum.fin 0)) || !(dist.gt (JSNum.fin 0)) then
      ({ ocrState with message := js "Both values must be greater than 0." }, trips)
    else if ocrState.targetTripId = some (js "new") then
      (closeOcrReview ocrState,
        trips ++ [{ makeTrip uuid today with
                    kmPerLiter := numberToString kpl, distanceKm := numberToString dist }])
    else
      (closeOcrReview ocrState,
        trips.map (fun t =>
          if some t.id = ocrState.targetTripId then
            { t with kmPerLiter := numberToString kpl, distanceKm := numberToString dist }
          else t))

/-- The value `Number(ocrState.extracted?.kmPerLiter)`. -/
def enteredKpl (s : OcrState) : JSNum :=
  match s.extracted with
  | some e => toNumber e.kmPerLiter
  | none => JSNum.nan

/-- The value `Number(ocrState.extracted?.distanceKm)`. -/
def enteredDistance (s : OcrState) : JSNum :=
  match s.extracted with
  | some e => toNumber e.distanceKm
  | none => JSNum.nan

/-- The flag `outOfRangeKpl`. -/
def outOfRangeKpl (s : OcrState) : Bool :=
  (enteredKpl s).gt (JSNum.fin 0) &&
    ((enteredKpl s).lt (JSNum.fin 3) || (enteredKpl s).gt (JSNum.fin 60))

/-- The flag `outOfRangeDistance`; `0.1` is the double that literal denotes. -/
def outOfRangeDistance (s : OcrState) : Bool :=
  (enteredDistance s).gt (JSNum.fin 0) &&
    ((enteredDistance s).lt (roundToDouble (1 / 10)) || (enteredDistance s).gt (JSNum.fin 1000))

/-- Whether the review dialog shows the "outside expected range" warning: the
dialog is open, not in its running branch, and one of the two flags is set. -/
def rangeAdvisoryShown (s : OcrState) : Bool :=
  (s.running || s.extracted.isSome) && !s.running && (outOfRangeKpl s || outOfRangeDistance s)

/-- The review phase: recognition is over and `extracted` is present. -/
def OcrState.isReady (s : OcrState) : Bool :=
  !s.running && s.extracted.isSome

/-! ## `preprocessImage`: the pixel loop

Lines 85-91 in binary64, every operation rounded as JavaScript rounds it. The
buffer `imgData.data` is a `Uint8ClampedArray`: a read gives a byte, or
`undefined` beyond the end, and a store converts the number stored to a byte. -/

/-- The sum `a + b`. -/
def JSNum.add : JSNum → JSNum → JSNum
  | JSNum.nan, _ => JSNum.nan
  | _, JSNum.nan => JSNum.nan
  | JSNum.fin a, JSNum.fin b => roundToDouble (a + b)
  | JSNum.posInf, JSNum.negInf => JSNum.nan
  | JSNum.negInf, JSNum.posInf => JSNum.nan
  | JSNum.posInf, _ => JSNum.posInf
  | _, JSNum.posInf => JSNum.posInf
  | JSNum.negInf, _ => JSNum.negInf
  | _, JSNum.negInf => JSNum.negInf

/-- The difference `a - b`. -/
def JSNum.sub (a b : JSNum) : JSNum :=
  JSNum.add a b.neg

/-- The call `Math.min(a, b)`. -/
def JSNum.min : JSNum → JSNum → JSNum
  | JSNum.nan, _ => JSNum.nan
  | _, JSNum.nan => JSNum.nan
  | a, b => if b.lt a then b else a

/-- The call `Math.max(a, b)`. -/
def JSNum.max : JSNum → JSNum → JSNum
  | JSNum.nan, _ => JSNum.nan
  | _, JSNum.nan => JSNum.nan
  | a, b => if a.lt b then b else a

/-- The number a read `data[i]` gives in arithmetic: the byte, or `NaN` for
`undefined`. -/
def channelValue : Option Nat → JSNum
  | some n => JSNum.fin (n : ℚ)
  | none => JSNum.nan

/-- The value `gray` of line 86: `0.299 * R + 0.587 * G + 0.114 * B`, the
literals being the doubles they denote. -/
def gray (r g b : JSNum) : JSNum :=
  JSNum.add
    (JSNum.add (JSNum.mul (roundToDouble (299 / 1000)) r)
      (JSNum.mul (roundToDouble (587 / 1000)) g))
    (JSNum.mul (roundToDouble (114 / 1000)) b)

/-- The value `contrasted` of line 87, from `gray`:
`Math.max(0, Math.min(255, (gray - 128) * 1.35 + 128))`. -/
def contrasted (y : JSNum) : JSNum :=
  JSNum.max (JSNum.fin 0)
    (JSNum.min (JSNum.fin 255)
      (JSNum.add (JSNum.mul (JSNum.sub y (JSNum.fin 128)) (roundToDouble (135 / 100)))
        (JSNum.fin 128)))

/-- The conversion ToUint8Clamp of a store into a `Uint8ClampedArray`: `NaN`
becomes 0, and a number is clamped to `[0, 255]` and rounded to the nearest
integer, the even one on a tie. -/
def toUint8Clamp : JSNum → Nat
  | JSNum.nan => 0
  | JSNum.posInf => 255
  | JSNum.negInf => 0
  | JSNum.fin x =>
    let c := max 0 (min 255 x)
    let f := Int.floor c
    if (f : ℚ) + 1 / 2 < c then (f + 1).toNat
    else if c < (f : ℚ) + 1 / 2 then f.toNat
    else if f % 2 = 0 then f.toNat else (f + 1).toNat

/-- The byte the colour channels of a pixel hold after lines 88-90, from what
the three reads of line 86 gave. -/
def contrastByte (r g b : Option Nat) : Nat :=
  toUint8Clamp (contrasted (gray (channelValue r) (channelValue g) (channelValue b)))

/-- The loop of lines 85-91 over the bytes of `imgData.data`, four per pixel:
the colour channels get `contrasted` and alpha is left as it is. The length of
an `ImageData` buffer is a multiple of 4; on a shorter last group a read beyond
the end gives `undefined` and a store beyond the end does nothing. -/
def contrastLoop : List Nat → List Nat
  | r :: g :: b :: a :: rest =>
    contrastByte (some r) (some g) (some b) :: contrastByte (some r) (some g) (some b) ::
      contrastByte (some r) (some g) (some b) :: a :: contrastLoop rest
  | [r, g, b] =>
    [contrastByte (some r) (some g) (some b), contrastByte (some r) (some g) (some b),
      contrastByte (some r) (some g) (some b)]
  | [r, g] => [contrastByte (some r) (some g) none, contrastByte (some r) (some g) none]
  | [r] => [contrastByte (some r) none none]
  | [] => []

/-! ## Properties used in the statements -/

/-- The function `clamp(x, lo, hi)` of the specification. -/
def clamp (x lo hi : ℚ) : ℚ :=
  if x < lo then lo else if hi < x then hi else x

/-- The luminance `Y = 0.299 R + 0.587 G + 0.114 B` of the specification, in
exact arithmetic. -/
def luminance (r g b : ℚ) : ℚ :=
  299 / 1000 * r + 587 / 1000 * g + 114 / 1000 * b

/-- The contrast stretch `Y' = clamp((Y - 128) × 1.35 + 128, 0, 255)` of the
specification, in exact arithmetic. -/
def contrastStretch (y : ℚ) : ℚ :=
  clamp ((y - 128) * (135 / 100) + 128) 0 255

/-- A syntactic guarantee that every match of the pattern consumes a character. -/
def Regex.consumes : Regex → Bool
  | Regex.eps => false
  | Regex.chr _ => true
  | Regex.cls _ => true
  | Regex.seq a b => a.consumes || b.consumes
  | Regex.alt a b => a.consumes && b.consumes
  | Regex.star _ => false
  | Regex.plus _ => true
  | Regex.opt _ => false
  | Regex.group r => r.consumes
  | Regex.wordB => false

/-- A syntactic guarantee that every match of the pattern passes over a decimal
digit. -/
def Regex.needsDigit : Regex → Bool
  | Regex.cls k => k == CharClass.digit
  | Regex.plus k => k == CharClass.digit
  | Regex.seq a b => a.needsDigit || b.needsDigit
  | Regex.alt a b => a.needsDigit && b.needsDigit
  | Regex.group r => r.needsDigit
  | _ => false

/-- The test `Number.isFinite(n) && n > 0` of `unique`. -/
def positiveFinite (n : JSNum) : Bool :=
  n.isFinite && n.gt (JSNum.fin 0)

/-- A list with every repeated value removed except its first occurrence. -/
def firstOccurrences : List JSNum → List JSNum
  | [] => []
  | x :: xs => x :: (firstOccurrences xs).filter (fun y => decide (y ≠ x))

/-- The text of a decimal number as the patterns read it: digits, optionally
followed by `.` and more digits. -/
def isDecimalText (n : JSString) : Bool :=
  !(n.takeWhile isDigit).isEmpty &&
    (match n.dropWhile isDigit with
    | [] => true
    | 46 :: f => !f.isEmpty && f.all isDigit
    | _ => false)

/-- Whether a number lies outside the interval from `lo` to `hi`. -/
def outsideRange (lo hi x : JSNum) : Bool :=
  x.lt lo || x.gt hi

/-! ## The matcher: where a match can end -/


theorem starRun_mem (k : CharClass) (cap : Option JSString) :
    ∀ (l : List Nat) (pos : Nat) (prev : Option Nat) (t : MState),
      t ∈ starRun k pos prev cap l →
        ∃ pre, l = pre ++ t.rest ∧ t.pos = pos + pre.length ∧ t.cap = cap := by
  intro l
  induction l with
  | nil =>
    intro pos prev t h
    simp [starRun] at h
    subst h
    exact ⟨[], by simp⟩
  | cons c cs ih =>
    intro pos prev t h
    unfold starRun at h
    split at h
    · rcases List.mem_append.mp h with h1 | h1
      · obtain ⟨pre, h2, h3, h4⟩ := ih _ _ _ h1
        refine ⟨c :: pre, by simp [h2], by simp [h3]; omega, h4⟩
      · simp at h1
        subst h1
        exact ⟨[], by simp⟩
    · simp at h
      subst h
      exact ⟨[], by simp⟩

/-- Every state reached by a pattern lies further along the same text. -/
theorem run_mem (ic : Bool) :
    ∀ (r : Regex) (s t : MState), t ∈ r.run ic s →
      ∃ pre, s.rest = pre ++ t.rest ∧ t.pos = s.pos + pre.length ∧
        (r.consumes = true → pre ≠ []) := by
  intro r
  induction r with
  | eps =>
    intro s t h
    simp [Regex.run] at h
    subst h
    exact ⟨[], by simp, by simp, by simp [Regex.consumes]⟩
  | chr c =>
    intro s t h
    unfold Regex.run at h
    split at h
    · rename_i x xs hx
      split at h
      · simp at h
        subst h
        exact ⟨[x], by simp [hx], by simp, by simp⟩
      · simp at h
    · simp at h
  | cls k =>
    intro s t h
    unfold Regex.run at h
    split at h
    · rename_i x xs hx
      split at h
      · simp at h
        subst h
        exact ⟨[x], by simp [hx], by simp, by simp⟩
      · simp at h
    · simp at h
  | seq a b iha ihb =>
    intro s t h
    simp only [Regex.run, List.mem_flatMap] at h
    obtain ⟨u, hu, ht⟩ := h
    obtain ⟨p1, h1, h2, h3⟩ := iha s u hu
    obtain ⟨p2, h4, h5, h6⟩ := ihb u t ht
    refine ⟨p1 ++ p2, by simp [h1, h4], by simp [h2, h5]; omega, ?_⟩
    intro hc
    simp only [Regex.consumes, Bool.or_eq_true] at hc
    rcases hc with hc | hc
    · have := h3 hc
      simp [this]
    · have := h6 hc
      simp [this]
  | alt a b iha ihb =>
    intro s t h
    simp only [Regex.run, List.mem_append] at h
    rcases h with h | h
    · obtain ⟨p1, h1, h2, h3⟩ := iha s t h
      refine ⟨p1, h1, h2, ?_⟩
      intro hc
      simp only [Regex.consumes, Bool.and_eq_true] at hc
      exact h3 hc.1
    · obtain ⟨p1, h1, h2, h3⟩ := ihb s t h
      refine ⟨p1, h1, h2, ?_⟩
      intro hc
      simp only [Regex.consumes, Bool.and_eq_true] at hc
      exact h3 hc.2
  | star k =>
    intro s t h
    simp only [Regex.run] at h
    obtain ⟨pre, h1, h2, _⟩ := starRun_mem k s.cap s.rest s.pos s.prev t h
    exact ⟨pre, h1, h2, by simp [Regex.consumes]⟩
  | plus k =>
    intro s t h
    unfold Regex.run at h
    split at h
    · rename_i x xs hx
      split at h
      · obtain ⟨pre, h1, h2, _⟩ := starRun_mem k s.cap xs (s.pos + 1) (some x) t h
        exact ⟨x :: pre, by simp [hx, h1], by simp [h2]; omega, by simp⟩
      · simp at h
    · simp at h
  | opt r ih =>
    intro s t h
    simp only [Regex.run, List.mem_append, List.mem_singleton] at h
    rcases h with h | h
    · obtain ⟨p1, h1, h2, _⟩ := ih s t h
      exact ⟨p1, h1, h2, by simp [Regex.consumes]⟩
    · subst h
      exact ⟨[], by simp, by simp, by simp [Regex.consumes]⟩
  | group r ih =>
    intro s t h
    simp only [Regex.run, List.mem_map] at h
    obtain ⟨u, hu, rfl⟩ := h
    obtain ⟨p1, h1, h2, h3⟩ := ih s u hu
    exact ⟨p1, h1, h2, by simpa [Regex.consumes] using h3⟩
  | wordB =>
    intro s t h
    unfold Regex.run at h
    split at h
    · simp at h
      subst h
      exact ⟨[], by simp, by simp, by simp [Regex.consumes]⟩
    · simp at h

/-- What a successful search of a consuming pattern returns. -/
theorem searchFrom_some (ic : Bool) (r : Regex) (hr : r.consumes = true) :
    ∀ (l : List Nat) (pos : Nat) (prev : Option Nat) (m : RegexMatch),
      searchFrom ic r pos prev l = some m →
        pos ≤ m.index ∧ m.index < m.last.pos ∧
          m.last.pos + m.last.rest.length = pos + l.length := by
  intro l
  induction l with
  | nil =>
    intro pos prev m h
    unfold searchFrom at h
    split at h
    · rename_i t ht
      simp at h
      subst h
      have hmem : t ∈ r.run ic ⟨pos, prev, [], none⟩ := List.mem_of_mem_head? ht
      obtain ⟨pre, h1, h2, h3⟩ := run_mem ic r _ _ hmem
      have hne := h3 hr
      simp at h1
      exact absurd h1.1 hne
    · simp at h
  | cons c cs ih =>
    intro pos prev m h
    unfold searchFrom at h
    split at h
    · rename_i t ht
      simp at h
      subst h
      have hmem : t ∈ r.run ic ⟨pos, prev, c :: cs, none⟩ := List.mem_of_mem_head? ht
      obtain ⟨pre, h1, h2, h3⟩ := run_mem ic r _ _ hmem
      have hne := h3 hr
      have hlen : 0 < pre.length := List.length_pos.mpr hne
      have hl := congrArg List.length h1
      simp at hl h2
      simp
      omega
    · obtain ⟨h1, h2, h3⟩ := ih _ _ _ h
      simp
      omega

/-- The matching loop of a consuming pattern ends within `fuel` rounds once
`fuel` exceeds the number of units left. -/
theorem execAll_isSome (ic : Bool) (r : Regex) (hr : r.consumes = true) :
    ∀ (fuel : Nat) (s : MState), s.rest.length < fuel → (execAll ic r fuel s).isSome = true := by
  intro fuel
  induction fuel with
  | zero => intro s h; omega
  | succ n ih =>
    intro s h
    unfold execAll
    split
    · rfl
    · rename_i m hm
      obtain ⟨h1, h2, h3⟩ := searchFrom_some ic r hr _ _ _ _ hm
      have hlt : m.last.rest.length < n := by omega
      have := ih ⟨m.last.pos, m.last.prev, m.last.rest, none⟩ hlt
      cases hx : execAll ic r n ⟨m.last.pos, m.last.prev, m.last.rest, none⟩ with
      | none => simp [hx] at this
      | some ms => simp

/-- The matches of a consuming pattern come in text order. -/
theorem execAll_sorted (ic : Bool) (r : Regex) (hr : r.consumes = true) :
    ∀ (fuel : Nat) (s : MState) (ms : List RegexMatch), execAll ic r fuel s = some ms →
      (∀ m ∈ ms, s.pos ≤ m.index) ∧ ms.Pairwise (fun a b => a.index < b.index) := by
  intro fuel
  induction fuel with
  | zero => intro s ms h; simp [execAll] at h
  | succ n ih =>
    intro s ms h
    unfold execAll at h
    split at h
    · simp at h
      subst h
      simp
    · rename_i m hm
      obtain ⟨h1, h2, h3⟩ := searchFrom_some ic r hr _ _ _ _ hm
      split at h
      · rename_i rest hrest
        simp at h
        subst h
        obtain ⟨g1, g2⟩ := ih _ _ hrest
        simp at g1
        constructor
        · intro x hx
          rcases List.mem_cons.mp hx with hx | hx
          · subst hx; exact h1
          · have := g1 x hx
            omega
        · refine List.pairwise_cons.mpr ⟨?_, g2⟩
          intro x hx
          have := g1 x hx
          omega
      · simp at h

/-- A pattern that needs a digit has no match in a text without one. -/
theorem run_eq_nil_of_no_digit (ic : Bool) :
    ∀ (r : Regex) (s : MState), r.needsDigit = true → (∀ c ∈ s.rest, isDigit c = false) →
      r.run ic s = [] := by
  intro r
  induction r with
  | eps => intro s h; simp [Regex.needsDigit] at h
  | chr c => intro s h; simp [Regex.needsDigit] at h
  | cls k =>
    intro s h hd
    simp [Regex.needsDigit] at h
    subst h
    unfold Regex.run
    split
    · rename_i x xs hx
      have := hd x (by simp [hx])
      simp [CharClass.test, this]
    · rfl
  | seq a b iha ihb =>
    intro s h hd
    simp only [Regex.needsDigit, Bool.or_eq_true] at h
    simp only [Regex.run]
    rcases h with h | h
    · simp [iha s h hd]
    · apply List.flatMap_eq_nil_iff.mpr
      intro t ht
      obtain ⟨pre, h1, _, _⟩ := run_mem ic a s t ht
      apply ihb t h
      intro c hc
      exact hd c (by simp [h1, hc])
  | alt a b iha ihb =>
    intro s h hd
    simp only [Regex.needsDigit, Bool.and_eq_true] at h
    simp [Regex.run, iha s h.1 hd, ihb s h.2 hd]
  | star k => intro s h; simp [Regex.needsDigit] at h
  | plus k =>
    intro s h hd
    simp [Regex.needsDigit] at h
    subst h
    unfold Regex.run
    split
    · rename_i x xs hx
      have := hd x (by simp [hx])
      simp [CharClass.test, this]
    · rfl
  | opt r _ => intro s h; simp [Regex.needsDigit] at h
  | group r ih =>
    intro s h hd
    simp only [Regex.needsDigit] at h
    simp [Regex.run, ih s h hd]
  | wordB => intro s h; simp [Regex.needsDigit] at h

theorem searchFrom_eq_none_of_no_digit (ic : Bool) (r : Regex) (hr : r.needsDigit = true) :
    ∀ (l : List Nat) (pos : Nat) (prev : Option Nat), (∀ c ∈ l, isDigit c = false) →
      searchFrom ic r pos prev l = none := by
  intro l
  induction l with
  | nil =>
    intro pos prev hd
    simp [searchFrom, run_eq_nil_of_no_digit ic r ⟨pos, prev, [], none⟩ hr (by simp)]
  | cons c cs ih =>
    intro pos prev hd
    have h1 := run_eq_nil_of_no_digit ic r ⟨pos, prev, c :: cs, none⟩ hr (by simpa using hd)
    have h2 := ih (pos + 1) (some c) (fun x hx => hd x (by simp [hx]))
    simp [searchFrom, h1, h2]

/-! ## The extractor returns -/

theorem collapseAux_mem : ∀ (l : List Nat) (b : Bool) (c : Nat),
    c ∈ collapseAux b l → c = 32 ∨ c ∈ l := by
  intro l
  induction l with
  | nil => intro b c h; simp [collapseAux] at h
  | cons x xs ih =>
    intro b c h
    unfold collapseAux at h
    split at h
    · split at h
      · rcases ih _ _ h with h | h
        · exact Or.inl h
        · exact Or.inr (by simp [h])
      · rcases List.mem_cons.mp h with h | h
        · exact Or.inl h
        · rcases ih _ _ h with h | h
          · exact Or.inl h
          · exact Or.inr (by simp [h])
    · rcases List.mem_cons.mp h with h | h
      · exact Or.inr (by simp [h])
      · rcases ih _ _ h with h | h
        · exact Or.inl h
        · exact Or.inr (by simp [h])

theorem trim_mem (l : List Nat) (c : Nat) (h : c ∈ trim l) : c ∈ l := by
  unfold trim at h
  have h1 := List.mem_reverse.mp h
  have h2 := (List.dropWhile_sublist _).subset h1
  have h3 := List.mem_reverse.mp h2
  exact (List.dropWhile_sublist _).subset h3

theorem lowerUnit_digit (x c : Nat) (h : c ∈ lowerUnit x) (hc : isDigit c = true) :
    isDigit x = true := by
  unfold lowerUnit at h
  simp only [isDigit, Bool.and_eq_true, decide_eq_true_eq] at hc ⊢
  split at h
  · rename_i hx
    simp at h hx
    omega
  · split at h
    · simp at h; omega
    · split at h
      · simp at h; omega
      · simp at h; subst h; exact hc

/-- Normalising and lower-casing a text brings in no decimal digit. -/
theorem lower_no_digit (raw : JSString) (h : ∀ c ∈ raw, isDigit c = false) :
    ∀ c ∈ toLowerCase (normalizeText raw), isDigit c = false := by
  intro c hc
  cases hd : isDigit c with
  | false => rfl
  | true =>
    unfold toLowerCase at hc
    obtain ⟨x, hx, hcx⟩ := List.mem_flatMap.mp hc
    have hxd := lowerUnit_digit x c hcx hd
    have hx1 := trim_mem _ _ hx
    rcases collapseAux_mem _ _ _ hx1 with h32 | hraw
    · subst h32; simp [isDigit] at hxd
    · rw [h x hraw] at hxd; cases hxd

theorem kplPattern1_consumes : kplPattern1.consumes = true := by decide
theorem kplPattern2_consumes : kplPattern2.consumes = true := by decide
theorem distancePattern1_consumes : distancePattern1.consumes = true := by decide
theorem distancePattern2_consumes : distancePattern2.consumes = true := by decide
theorem kplPattern1_needsDigit : kplPattern1.needsDigit = true := by decide
theorem kplPattern2_needsDigit : kplPattern2.needsDigit = true := by decide
theorem distancePattern1_needsDigit : distancePattern1.needsDigit = true := by decide
theorem distancePattern2_needsDigit : distancePattern2.needsDigit = true := by decide

/-- Each matching loop of the extractor ends. -/
theorem allMatches_isSome (r : Regex) (hr : r.consumes = true) (lower : JSString) :
    ∃ ms, allMatches r lower = some ms := by
  have h := execAll_isSome true r hr (lower.length + 1) ⟨0, none, lower, none⟩ (by simp)
  exact Option.isSome_iff_exists.mp h

/-- A loop whose first search fails pushes nothing. -/
theorem allMatches_of_search_none (r : Regex) (lower : JSString)
    (h : searchFrom true r 0 none lower = none) : allMatches r lower = some [] := by
  simp [allMatches, execAll, h]

theorem unique_nil : unique [] = [] := by
  simp [unique]

/-- The extractor returns, with the lists `unique` makes of what was collected. -/
theorem extractOcrCandidates_eq (raw : JSString) :
    ∃ k1 k2 d1 d2,
      allMatches kplPattern1 (toLowerCase (normalizeText raw)) = some k1 ∧
      allMatches kplPattern2 (toLowerCase (normalizeText raw)) = some k2 ∧
      allMatches distancePattern1 (toLowerCase (normalizeText raw)) = some d1 ∧
      allMatches distancePattern2 (toLowerCase (normalizeText raw)) = some d2 ∧
      extractOcrCandidates raw = some
        { rawText := normalizeText raw
          kmPerLiterCandidates := unique ((k1 ++ k2).map matchNumber)
          distanceCandidates := unique (((d1 ++ d2).filter
            (fun m => !nearMarker (toLowerCase (normalizeText raw)) m)).map matchNumber) } := by
  obtain ⟨k1, hk1⟩ := allMatches_isSome kplPattern1 kplPattern1_consumes
    (toLowerCase (normalizeText raw))
  obtain ⟨k2, hk2⟩ := allMatches_isSome kplPattern2 kplPattern2_consumes
    (toLowerCase (normalizeText raw))
  obtain ⟨d1, hd1⟩ := allMatches_isSome distancePattern1 distancePattern1_consumes
    (toLowerCase (normalizeText raw))
  obtain ⟨d2, hd2⟩ := allMatches_isSome distancePattern2 distancePattern2_consumes
    (toLowerCase (normalizeText raw))
  refine ⟨k1, k2, d1, d2, hk1, hk2, hd1, hd2, ?_⟩
  simp [extractOcrCandidates, collectKmPerLiter, collectDistance, hk1, hk2, hd1, hd2]

/-- When no pattern matches, both lists are empty. -/
theorem extractOcrCandidates_of_no_match (raw : JSString)
    (h1 : searchFrom true kplPattern1 0 none (toLowerCase (normalizeText raw)) = none)
    (h2 : searchFrom true kplPattern2 0 none (toLowerCase (normalizeText raw)) = none)
    (h3 : searchFrom true distancePattern1 0 none (toLowerCase (normalizeText raw)) = none)
    (h4 : searchFrom true distancePattern2 0 none (toLowerCase (normalizeText raw)) = none) :
    extractOcrCandidates raw = some
      { rawText := normalizeText raw, kmPerLiterCandidates := [], distanceCandidates := [] } := by
  simp [extractOcrCandidates, collectKmPerLiter, collectDistance,
    allMatches_of_search_none _ _ h1, allMatches_of_search_none _ _ h2,
    allMatches_of_search_none _ _ h3, allMatches_of_search_none _ _ h4, unique_nil]

theorem extractOcrCandidates_of_no_digit (raw : JSString) (h : ∀ c ∈ raw, isDigit c = false) :
    extractOcrCandidates raw = some
      { rawText := normalizeText raw, kmPerLiterCandidates := [], distanceCandidates := [] } := by
  have hl := lower_no_digit raw h
  exact extractOcrCandidates_of_no_match raw
    (searchFrom_eq_none_of_no_digit true _ kplPattern1_needsDigit _ 0 none hl)
    (searchFrom_eq_none_of_no_digit true _ kplPattern2_needsDigit _ 0 none hl)
    (searchFrom_eq_none_of_no_digit true _ distancePattern1_needsDigit _ 0 none hl)
    (searchFrom_eq_none_of_no_digit true _ distancePattern2_needsDigit _ 0 none hl)

/-! ## `unique`, `String` and the pre-filled values -/

theorem firstOccurrences_filter_mem (l : List JSNum) (x : JSNum) :
    x ∈ firstOccurrences l ↔ x ∈ l := by
  induction l with
  | nil => simp [firstOccurrences]
  | cons a as ih =>
    simp only [firstOccurrences, List.mem_cons, List.mem_filter, decide_eq_true_eq]
    constructor
    · rintro (h | ⟨h, _⟩)
      · exact Or.inl h
      · exact Or.inr (ih.mp h)
    · rintro (h | h)
      · exact Or.inl h
      · by_cases hx : x = a
        · exact Or.inl hx
        · exact Or.inr ⟨ih.mpr h, hx⟩

theorem firstOccurrences_nodup (l : List JSNum) : (firstOccurrences l).Nodup := by
  induction l with
  | nil => simp [firstOccurrences]
  | cons a as ih =>
    simp only [firstOccurrences]
    refine List.nodup_cons.mpr ⟨?_, ih.filter _⟩
    simp [List.mem_filter]

theorem firstOccurrences_sublist (l : List JSNum) : (firstOccurrences l).Sublist l := by
  induction l with
  | nil => simp [firstOccurrences]
  | cons a as ih =>
    simp only [firstOccurrences]
    exact ((List.filter_sublist _).trans ih).cons₂ a

/-- Building a `Set` value by value keeps the first occurrence of each value. -/
theorem foldl_setAdd (l : List JSNum) : ∀ acc : List JSNum,
    l.foldl setAdd acc = acc ++ (firstOccurrences l).filter (fun y => decide (y ∉ acc)) := by
  induction l with
  | nil => intro acc; simp [firstOccurrences]
  | cons x xs ih =>
    intro acc
    simp only [List.foldl_cons, firstOccurrences]
    rw [ih]
    by_cases hx : x ∈ acc
    · simp only [setAdd, hx, if_true, List.filter_cons, not_true_eq_false, decide_False,
        Bool.false_eq_true, if_false, List.filter_filter]
      congr 1
      apply List.filter_congr
      intro y _
      by_cases hy : y ∈ acc
      · simp [hy]
      · have : y ≠ x := fun h => hy (h ▸ hx)
        simp [hy, this]
    · simp only [setAdd, hx, if_false, List.filter_cons, not_false_eq_true, decide_True, if_true,
        List.filter_filter, List.append_assoc, List.singleton_append]
      congr 2
      apply List.filter_congr
      intro y _
      by_cases hy : y ∈ acc
      · simp [hy]
      · by_cases hyx : y = x
        · simp [hy, hyx]
        · simp [hy, hyx]

/-- The helper `unique` keeps the positive finite values, each at its first occurrence. -/
theorem unique_eq (l : List JSNum) : unique l = firstOccurrences (l.filter positiveFinite) := by
  unfold unique
  rw [foldl_setAdd]
  simp only [List.nil_append, List.not_mem_nil, not_false_eq_true, decide_True, List.filter_true]
  rfl

theorem unique_positive (l : List JSNum) (x : JSNum) (h : x ∈ unique l) :
    x.isFinite = true ∧ x.gt (JSNum.fin 0) = true := by
  rw [unique_eq, firstOccurrences_filter_mem, List.mem_filter] at h
  simpa [positiveFinite] using h.2

theorem natDigitsAux_ne_nil : ∀ (fuel n : Nat) (acc : List Nat), natDigitsAux fuel n acc ≠ [] := by
  intro fuel
  induction fuel with
  | zero => intro n acc; simp [natDigitsAux]
  | succ k ih =>
    intro n acc
    unfold natDigitsAux
    split
    · simp
    · exact ih _ _

theorem layoutDigits_ne_nil (ds : List Nat) (n : Int) (h : ds ≠ []) : layoutDigits ds n ≠ [] := by
  unfold layoutDigits
  simp only
  split
  · simp [h]
  · split
    · simp
    · split
      · simp
      · split <;> simp

/-- The text `String(x)` is never empty. -/
theorem numberToString_ne_nil (x : JSNum) : numberToString x ≠ [] := by
  have hp : ∀ v : ℚ, positiveToString v ≠ [] := fun v =>
    layoutDigits_ne_nil _ _ (natDigitsAux_ne_nil _ _ _)
  cases x with
  | nan => decide
  | posInf => decide
  | negInf => decide
  | fin v =>
    simp only [numberToString]
    split
    · decide
    · split
      · simp
      · exact hp v

theorem truthy_of_positive (x : JSNum) (h : x.gt (JSNum.fin 0) = true) : x.truthy = true := by
  cases x with
  | nan => simp [JSNum.gt, JSNum.lt] at h
  | posInf => rfl
  | negInf => simp [JSNum.gt, JSNum.lt] at h
  | fin v =>
    simp only [JSNum.gt, JSNum.lt, decide_eq_true_eq] at h
    simp only [JSNum.truthy, decide_eq_true_eq]
    exact ne_of_gt h

/-- What `prefill` gives for a list made by `unique`. -/
theorem prefill_unique (l : List JSNum) :
    prefill (unique l) =
      match unique l with
      | x :: _ => numberToString x
      | [] => [] := by
  cases h : unique l with
  | nil => rfl
  | cons x xs =>
    have hx : x ∈ unique l := by simp [h]
    have := truthy_of_positive x (unique_positive l x hx).2
    simp [prefill, this]

/-! ## The apply gate -/

/-- C1 (apply gate). In the review phase (`extracted` present, not running)
`applyOcrToTrip` closes the session exactly when both chosen values convert to
numbers greater than 0. Otherwise the trips and every field of the session but
`message` stay as they were, `message` becomes "Both values must be greater
than 0." and the session is still in review. The chosen values `0`, `50` are
rejected; `14.5`, `120` and the out-of-range `2`, `50` are accepted. -/
theorem applyOcrToTrip_gate (uuid today : JSString) (s : OcrState) (trips : List Trip)
    (e : Extracted) (hrun : s.running = false) (hex : s.extracted = some e) :
    ((applyOcrToTrip uuid today s trips).1 = idleState ↔
      ((toNumber e.kmPerLiter).gt (JSNum.fin 0) = true ∧
        (toNumber e.distanceKm).gt (JSNum.fin 0) = true)) ∧
    (¬((toNumber e.kmPerLiter).gt (JSNum.fin 0) = true ∧
        (toNumber e.distanceKm).gt (JSNum.fin 0) = true) →
      applyOcrToTrip uuid today s trips =
        ({ s with message := js "Both values must be greater than 0." }, trips) ∧
      (applyOcrToTrip uuid today s trips).1.isReady = true) ∧
    (e.kmPerLiter = js "0" → e.distanceKm = js "50" →
      applyOcrToTrip uuid today s trips =
        ({ s with message := js "Both values must be greater than 0." }, trips)) ∧
    (e.kmPerLiter = js "14.5" → e.distanceKm = js "120" →
      (applyOcrToTrip uuid today s trips).1 = idleState) ∧
    (e.kmPerLiter = js "2" → e.distanceKm = js "50" →
      (applyOcrToTrip uuid today s trips).1 = idleState) := by
  have hno : ¬((toNumber e.kmPerLiter).gt (JSNum.fin 0) = true ∧
        (toNumber e.distanceKm).gt (JSNum.fin 0) = true) →
      applyOcrToTrip uuid today s trips =
        ({ s with message := js "Both values must be greater than 0." }, trips) := by
    intro h
    have h' : (toNumber e.kmPerLiter).gt (JSNum.fin 0) = false ∨
        (toNumber e.distanceKm).gt (JSNum.fin 0) = false := by
      cases h1 : (toNumber e.kmPerLiter).gt (JSNum.fin 0) <;>
        cases h2 : (toNumber e.distanceKm).gt (JSNum.fin 0) <;> simp_all
    simp only [applyOcrToTrip, hex]
    rcases h' with h' | h' <;> simp [h']
  have hyes : ((toNumber e.kmPerLiter).gt (JSNum.fin 0) = true ∧
        (toNumber e.distanceKm).gt (JSNum.fin 0) = true) →
      (applyOcrToTrip uuid today s trips).1 = idleState := by
    intro h
    simp only [applyOcrToTrip, hex, h.1, h.2]
    by_cases ht : s.targetTripId = some (js "new") <;> simp [ht, closeOcrReview]
  refine ⟨⟨?_, hyes⟩, ?_, ?_, ?_, ?_⟩
  · intro h
    by_contra hn
    rw [hno hn] at h
    have := congrArg OcrState.extracted h
    simp [hex, idleState] at this
  · intro hn
    refine ⟨hno hn, ?_⟩
    rw [hno hn]
    simp [OcrState.isReady, hrun, hex]
  · intro h1 h2
    apply hno
    rw [h1]
    intro h
    exact absurd h.1 (by decide!)
  · intro h1 h2
    apply hyes
    rw [h1, h2]
    exact ⟨by decide!, by decide!⟩
  · intro h1 h2
    apply hyes
    rw [h1, h2]
    exact ⟨by decide!, by decide!⟩

/-- C1, at a session with chosen values `0` and `50`. -/
theorem applyOcrToTrip_gate_witness :
    applyOcrToTrip (js "u") (js "2024-05-01")
        { running := false, progress := JSNum.fin 100, targetTripId := some (js "t1"),
          extracted := some ⟨[], [], [], js "0", js "50"⟩, confidence := some (JSNum.fin 80),
          message := [] }
        [⟨js "t1", js "2024-04-30", [], [], []⟩] =
      ({ running := false, progress := JSNum.fin 100, targetTripId := some (js "t1"),
         extracted := some ⟨[], [], [], js "0", js "50"⟩, confidence := some (JSNum.fin 80),
         message := js "Both values must be greater than 0." },
        [⟨js "t1", js "2024-04-30", [], [], []⟩]) :=
  (applyOcrToTrip_gate (js "u") (js "2024-05-01")
    { running := false, progress := JSNum.fin 100, targetTripId := some (js "t1"),
      extracted := some ⟨[], [], [], js "0", js "50"⟩, confidence := some (JSNum.fin 80),
      message := [] }
    [⟨js "t1", js "2024-04-30", [], [], []⟩] ⟨[], [], [], js "0", js "50"⟩ rfl rfl).2.2.1 rfl rfl

/-! ## The effect of apply and the range advisory -/

/-- C7, as stated, fails: the target `"new"` is the id of the one trip in the
list (ids loaded by `validateState` are arbitrary non-empty strings), both
chosen values are positive, and yet that trip keeps its empty fields and the
list grows by one. -/
theorem applyOcrToTrip_sentinel_id_counterexample :
    (applyOcrToTrip (js "u") (js "2024-05-01")
        { running := false, progress := JSNum.fin 100, targetTripId := some (js "new"),
          extracted := some ⟨[], [], [], js "14.5", js "120"⟩,
          confidence := some (JSNum.fin 80), message := [] }
        [⟨js "new", js "2024-04-30", [], [], []⟩]).2 =
      [⟨js "new", js "2024-04-30", [], [], []⟩,
       ⟨js "u", js "2024-05-01", [], js "14.5", js "120"⟩] := by
  decide!

/-- C7 (effect of a successful apply), amended. When both chosen values convert
to `k > 0` and `d > 0`: (a) for a target other than `"new"`, the list keeps its
length and order, every trip whose id is the target gets `kmPerLiter = String(k)`
and `distanceKm = String(d)` with id, date and label kept, and every other trip
is unchanged; (b) for the target `"new"`, one trip is appended with those two
fields and the existing trips are unchanged; in both cases the session becomes
the idle one. -/
theorem applyOcrToTrip_effect (uuid today : JSString) (s : OcrState) (trips : List Trip)
    (e : Extracted) (hex : s.extracted = some e)
    (hk : (toNumber e.kmPerLiter).gt (JSNum.fin 0) = true)
    (hd : (toNumber e.distanceKm).gt (JSNum.fin 0) = true) :
    (∀ tid, s.targetTripId = some tid → tid ≠ js "new" →
      (applyOcrToTrip uuid today s trips).2.length = trips.length ∧
      ∀ (i : Nat) (t : Trip), trips[i]? = some t →
        (applyOcrToTrip uuid today s trips).2[i]? = some
          (if t.id = tid then
            ⟨t.id, t.date, t.label, numberToString (toNumber e.kmPerLiter),
              numberToString (toNumber e.distanceKm)⟩
          else t)) ∧
    (s.targetTripId = some (js "new") →
      (applyOcrToTrip uuid today s trips).2 =
        trips ++ [⟨uuid, today, [], numberToString (toNumber e.kmPerLiter),
          numberToString (toNumber e.distanceKm)⟩]) ∧
    (applyOcrToTrip uuid today s trips).1 = idleState ∧
    idleState = ⟨false, JSNum.fin 0, none, none, none, []⟩ := by
  refine ⟨?_, ?_, ?_, rfl⟩
  · intro tid ht hne
    have hne' : ¬ (tid = js "new") := hne
    simp only [applyOcrToTrip, hex, hk, hd, ht, Option.some.injEq, hne']
    simp only [Bool.not_true, Bool.or_self, Bool.false_eq_true, if_false, List.length_map,
      true_and]
    intro i t hi
    rw [List.getElem?_map, hi]
    by_cases hid : t.id = tid <;> simp [hid]
  · intro ht
    simp [applyOcrToTrip, hex, hk, hd, ht, makeTrip]
  · simp only [applyOcrToTrip, hex, hk, hd]
    by_cases ht : s.targetTripId = some (js "new") <;> simp [ht, closeOcrReview]

/-- C7, at a session whose target is the trip `t1`, with chosen values `14.5`
and `120`. -/
theorem applyOcrToTrip_effect_witness :
    (applyOcrToTrip (js "u") (js "2024-05-01")
        { running := false, progress := JSNum.fin 100, targetTripId := some (js "t1"),
          extracted := some ⟨[], [], [], js "14.5", js "120"⟩,
          confidence := some (JSNum.fin 80), message := [] }
        [⟨js "t1", js "2024-04-30", [], [], []⟩]).1 = idleState :=
  (applyOcrToTrip_effect (js "u") (js "2024-05-01")
    { running := false, progress := JSNum.fin 100, targetTripId := some (js "t1"),
      extracted := some ⟨[], [], [], js "14.5", js "120"⟩,
      confidence := some (JSNum.fin 80), message := [] }
    [⟨js "t1", js "2024-04-30", [], [], []⟩] ⟨[], [], [], js "14.5", js "120"⟩ rfl
    (by decide!) (by decide!)).2.2.1

/-- C8, as stated, fails: the chosen fuel-efficiency value `0` lies outside
`[3, 60]`, the session is in review, and no advisory is raised. -/
theorem rangeAdvisory_zero_counterexample :
    OcrState.isReady
        { running := false, progress := JSNum.fin 100, targetTripId := some (js "t1"),
          extracted := some ⟨[], [], [], js "0", js "50"⟩,
          confidence := some (JSNum.fin 80), message := [] } = true ∧
    outsideRange (JSNum.fin 3) (JSNum.fin 60) (enteredKpl
        { running := false, progress := JSNum.fin 100, targetTripId := some (js "t1"),
          extracted := some ⟨[], [], [], js "0", js "50"⟩,
          confidence := some (JSNum.fin 80), message := [] }) = true ∧
    rangeAdvisoryShown
        { running := false, progress := JSNum.fin 100, targetTripId := some (js "t1"),
          extracted := some ⟨[], [], [], js "0", js "50"⟩,
          confidence := some (JSNum.fin 80), message := [] } = false := by
  decide!

/-- C8 (range advisory), amended. In review the advisory is raised exactly when
the chosen fuel-efficiency value is greater than 0 and outside `[3, 60]`, or the
chosen distance is greater than 0 and outside `[0.1, 1000]`. The bounds `3`,
`60`, `0.1`, `1000` raise nothing and the value `2` raises it. Apply does not
consult the advisory: it closes the session whenever both values are greater
than 0, as with `2` and `50`. -/
theorem rangeAdvisory_iff (s : OcrState) (e : Extracted) (hrun : s.running = false)
    (hex : s.extracted = some e) :
    (rangeAdvisoryShown s = true ↔
      ((toNumber e.kmPerLiter).gt (JSNum.fin 0) = true ∧
          outsideRange (JSNum.fin 3) (JSNum.fin 60) (toNumber e.kmPerLiter) = true) ∨
        ((toNumber e.distanceKm).gt (JSNum.fin 0) = true ∧
          outsideRange (roundToDouble (1 / 10)) (JSNum.fin 1000)
            (toNumber e.distanceKm) = true)) ∧
    (e.kmPerLiter = js "3" → e.distanceKm = js "0.1" → rangeAdvisoryShown s = false) ∧
    (e.kmPerLiter = js "60" → e.distanceKm = js "1000" → rangeAdvisoryShown s = false) ∧
    (e.kmPerLiter = js "2" → rangeAdvisoryShown s = true) ∧
    (∀ uuid today trips,
      (toNumber e.kmPerLiter).gt (JSNum.fin 0) = true →
      (toNumber e.distanceKm).gt (JSNum.fin 0) = true →
      (applyOcrToTrip uuid today s trips).1 = idleState) ∧
    (e.kmPerLiter = js "2" → e.distanceKm = js "50" → ∀ uuid today trips,
      rangeAdvisoryShown s = true ∧ (applyOcrToTrip uuid today s trips).1 = idleState) := by
  have hiff : rangeAdvisoryShown s = true ↔
      ((toNumber e.kmPerLiter).gt (JSNum.fin 0) = true ∧
          outsideRange (JSNum.fin 3) (JSNum.fin 60) (toNumber e.kmPerLiter) = true) ∨
        ((toNumber e.distanceKm).gt (JSNum.fin 0) = true ∧
          outsideRange (roundToDouble (1 / 10)) (JSNum.fin 1000)
            (toNumber e.distanceKm) = true) := by
    simp only [rangeAdvisoryShown, outOfRangeKpl, outOfRangeDistance, enteredKpl,
      enteredDistance, hrun, hex, outsideRange, Option.isSome_some, Bool.false_or,
      Bool.not_false, Bool.true_and, Bool.or_eq_true, Bool.and_eq_true]
  have happly : ∀ uuid today trips,
      (toNumber e.kmPerLiter).gt (JSNum.fin 0) = true →
      (toNumber e.distanceKm).gt (JSNum.fin 0) = true →
      (applyOcrToTrip uuid today s trips).1 = idleState := by
    intro uuid today trips hk hd
    simp only [applyOcrToTrip, hex, hk, hd]
    by_cases ht : s.targetTripId = some (js "new") <;> simp [ht, closeOcrReview]
  have hfalse : ∀ b : Bool, ¬ (b = true) → b = false := by
    intro b hb; cases b <;> simp_all
  refine ⟨hiff, ?_, ?_, ?_, happly, ?_⟩
  · intro h1 h2
    apply hfalse
    rw [hiff, h1, h2]
    decide!
  · intro h1 h2
    apply hfalse
    rw [hiff, h1, h2]
    decide!
  · intro h1
    rw [hiff, h1]
    exact Or.inl (by decide!)
  · intro h1 h2 uuid today trips
    refine ⟨?_, happly uuid today trips (by rw [h1]; decide!) (by rw [h2]; decide!)⟩
    rw [hiff, h1]
    exact Or.inl (by decide!)

/-- C8, at a session with chosen values `2` and `50`. -/
theorem rangeAdvisory_iff_witness :
    rangeAdvisoryShown
        { running := false, progress := JSNum.fin 100, targetTripId := some (js "t1"),
          extracted := some ⟨[], [], [], js "2", js "50"⟩,
          confidence := some (JSNum.fin 80), message := [] } = true :=
  (rangeAdvisory_iff
    { running := false, progress := JSNum.fin 100, targetTripId := some (js "t1"),
      extracted := some ⟨[], [], [], js "2", js "50"⟩,
      confidence := some (JSNum.fin 80), message := [] }
    ⟨[], [], [], js "2", js "50"⟩ rfl rfl).2.2.2.1 rfl

/-! ## Entering the review phase -/

/-- The logger calls change `progress` only. -/
theorem foldl_onLoggerMessage (log : List LoggerMessage) : ∀ s : OcrState,
    log.foldl onLoggerMessage s =
      { s with progress := (log.foldl onLoggerMessage s).progress } := by
  induction log with
  | nil => intro s; rfl
  | cons m ms ih =>
    intro s
    simp only [List.foldl_cons]
    rw [ih]
    unfold onLoggerMessage
    split <;> rfl

theorem orZero_eq (c : JSNum) (hc : c ≠ JSNum.nan) : c.orZero = c := by
  cases c with
  | nan => exact absurd rfl hc
  | posInf => rfl
  | negInf => rfl
  | fin v =>
    by_cases hv : v = 0
    · simp [JSNum.orZero, JSNum.truthy, hv]
    · simp [JSNum.orZero, JSNum.truthy, hv]

/-- The extractor returns for every text, and its lists are made by `unique`. -/
theorem extractOcrCandidates_returns (t : JSString) :
    ∃ ex a b, extractOcrCandidates t = some ex ∧
      ex.kmPerLiterCandidates = unique a ∧ ex.distanceCandidates = unique b := by
  obtain ⟨k1, k2, d1, d2, _, _, _, _, hex⟩ := extractOcrCandidates_eq t
  exact ⟨_, _, _, hex, rfl, rfl⟩

/-- The success path of `handleFileChange`. -/
theorem handleFileChange_resolved (s : OcrState) (log : List LoggerMessage) (t : JSString)
    (conf : Option JSNum) (ex : OcrCandidates) (hex : extractOcrCandidates t = some ex) :
    handleFileChange true (Recognition.resolved log (some ⟨some t, conf⟩)) s =
      some (recognitionDone ex
        (match conf with
          | some c => c.orZero
          | none => JSNum.fin 0)
        (log.foldl onLoggerMessage
          { s with running := true, progress := JSNum.fin 0, message := [], extracted := none,
                   confidence := none })) := by
  simp only [handleFileChange, hex]
  rfl

/-- C5 (confidence gating on entering review). When preprocessing and
recognition succeed with text `t` and confidence `c` (a number, not `NaN`),
`handleFileChange` ends with the session not running and in review, with
`confidence = c` and `extracted` carrying what `extractOcrCandidates(t)`
returns; the message is non-empty exactly when `c < 50` or both candidate lists
are empty. With a candidate present, `c = 40` gives a non-empty message and
`c = 80` the empty one. -/
theorem handleFileChange_confidence (s : OcrState) (log : List LoggerMessage) (t : JSString)
    (c : JSNum) (hc : c ≠ JSNum.nan) :
    ∃ ex s' e',
      extractOcrCandidates t = some ex ∧
      handleFileChange true (Recognition.resolved log (some ⟨some t, some c⟩)) s = some s' ∧
      s'.running = false ∧ s'.isReady = true ∧ s'.confidence = some c ∧
      s'.extracted = some e' ∧ e'.rawText = ex.rawText ∧
      e'.kmPerLiterCandidates = ex.kmPerLiterCandidates ∧
      e'.distanceCandidates = ex.distanceCandidates ∧
      (s'.message ≠ [] ↔
        (c.lt (JSNum.fin 50) = true ∨
          (ex.kmPerLiterCandidates = [] ∧ ex.distanceCandidates = []))) ∧
      ((ex.kmPerLiterCandidates ≠ [] ∨ ex.distanceCandidates ≠ []) → c = JSNum.fin 40 →
        s'.message ≠ []) ∧
      ((ex.kmPerLiterCandidates ≠ [] ∨ ex.distanceCandidates ≠ []) → c = JSNum.fin 80 →
        s'.message = []) := by
  obtain ⟨ex, a, b, hex, _, _⟩ := extractOcrCandidates_returns t
  have hmsg : js "Could not confidently detect values. Please input manually." ≠ [] := by
    decide
  have hiff : ∀ (a b : List JSNum),
      ((if c.lt (JSNum.fin 50) || (a.length == 0 && b.length == 0) then
          js "Could not confidently detect values. Please input manually."
        else ([] : JSString)) ≠ [] ↔
        (c.lt (JSNum.fin 50) = true ∨ (a = [] ∧ b = []))) := by
    intro a b
    cases hlt : c.lt (JSNum.fin 50) <;> cases a <;> cases b <;> simp [hmsg]
  have hrun := handleFileChange_resolved s log t (some c) ex hex
  simp only [orZero_eq c hc] at hrun
  refine ⟨ex, _, _, hex, hrun, rfl, rfl, rfl, rfl, rfl, rfl, rfl, ?_, ?_, ?_⟩
  · simp only [recognitionDone]
    exact hiff _ _
  · intro _ h40
    simp only [recognitionDone]
    rw [hiff]
    exact Or.inl (by rw [h40]; decide)
  · intro hne h80
    simp only [recognitionDone]
    by_contra hcon
    rcases (hiff _ _).mp hcon with h1 | h1
    · rw [h80] at h1
      revert h1
      decide
    · rcases hne with hne | hne
      · exact hne h1.1
      · exact hne h1.2

/-- C5, at the idle session, the text "14.5 km/L" and confidence 40. -/
theorem handleFileChange_confidence_witness :
    ∃ ex s' e',
      extractOcrCandidates (js "14.5 km/L") = some ex ∧
      handleFileChange true
        (Recognition.resolved [] (some ⟨some (js "14.5 km/L"), some (JSNum.fin 40)⟩))
        idleState = some s' ∧
      s'.running = false ∧ s'.isReady = true ∧ s'.confidence = some (JSNum.fin 40) ∧
      s'.extracted = some e' ∧ e'.rawText = ex.rawText ∧
      e'.kmPerLiterCandidates = ex.kmPerLiterCandidates ∧
      e'.distanceCandidates = ex.distanceCandidates ∧
      (s'.message ≠ [] ↔
        ((JSNum.fin 40).lt (JSNum.fin 50) = true ∨
          (ex.kmPerLiterCandidates = [] ∧ ex.distanceCandidates = []))) ∧
      ((ex.kmPerLiterCandidates ≠ [] ∨ ex.distanceCandidates ≠ []) →
        JSNum.fin 40 = JSNum.fin 40 → s'.message ≠ []) ∧
      ((ex.kmPerLiterCandidates ≠ [] ∨ ex.distanceCandidates ≠ []) →
        JSNum.fin 40 = JSNum.fin 80 → s'.message = []) :=
  handleFileChange_confidence idleState [] (js "14.5 km/L") (JSNum.fin 40) (by decide)

/-- C6 (failure resilience). When `preprocessImage` rejects, or the engine
rejects, or it resolves without `data`, `handleFileChange` still ends, in
review: not running, `extracted` present with both candidate lists, `rawText`
and both chosen values empty, `confidence = 0` and a non-empty message;
`targetTripId` is what it was. -/
theorem handleFileChange_failure (s : OcrState) (log : List LoggerMessage) (r : Recognition)
    (hr : r = Recognition.imageFailed ∨ r = Recognition.engineFailed log ∨
      r = Recognition.resolved log none) :
    ∃ s', handleFileChange true r s = some s' ∧
      s'.running = false ∧ s'.isReady = true ∧
      s'.extracted = some ⟨[], [], [], [], []⟩ ∧
      s'.confidence = some (JSNum.fin 0) ∧ s'.message ≠ [] ∧
      s'.targetTripId = s.targetTripId := by
  have hmsg : js "Couldn't detect, please input manually." ≠ [] := by decide
  rcases hr with hr | hr | hr
  · subst hr
    exact ⟨_, rfl, rfl, rfl, rfl, rfl, hmsg, rfl⟩
  · subst hr
    refine ⟨_, rfl, rfl, rfl, rfl, rfl, hmsg, ?_⟩
    simp only [recognitionFailed]
    rw [foldl_onLoggerMessage]
  · subst hr
    refine ⟨_, rfl, rfl, rfl, rfl, rfl, hmsg, ?_⟩
    simp only [recognitionFailed]
    rw [foldl_onLoggerMessage]

/-- C6, when the engine rejects after one progress message. -/
theorem handleFileChange_failure_witness :
    ∃ s', handleFileChange true
        (Recognition.engineFailed [⟨js "recognizing text", some (JSNum.fin (1 / 2))⟩])
        { running := false, progress := JSNum.fin 0, targetTripId := some (js "t1"),
          extracted := none, confidence := none, message := [] } = some s' ∧
      s'.running = false ∧ s'.isReady = true ∧
      s'.extracted = some ⟨[], [], [], [], []⟩ ∧
      s'.confidence = some (JSNum.fin 0) ∧ s'.message ≠ [] ∧
      s'.targetTripId = some (js "t1") :=
  handleFileChange_failure
    { running := false, progress := JSNum.fin 0, targetTripId := some (js "t1"),
      extracted := none, confidence := none, message := [] }
    [⟨js "recognizing text", some (JSNum.fin (1 / 2))⟩]
    (Recognition.engineFailed [⟨js "recognizing text", some (JSNum.fin (1 / 2))⟩])
    (Or.inr (Or.inl rfl))

/-- C9 (pre-fill of the chosen values). On the success path, for every
recognised text, the chosen km/L string put in the session is `String` of the
first km/L candidate when there is one and the empty string when there is none,
and likewise the chosen distance; a non-empty candidate list never gives an
empty pre-filled value. -/
theorem handleFileChange_prefill (s : OcrState) (log : List LoggerMessage) (t : JSString)
    (conf : Option JSNum) :
    ∃ ex s' e',
      extractOcrCandidates t = some ex ∧
      handleFileChange true (Recognition.resolved log (some ⟨some t, conf⟩)) s = some s' ∧
      s'.extracted = some e' ∧
      e'.kmPerLiter = (match ex.kmPerLiterCandidates with
        | x :: _ => numberToString x
        | [] => []) ∧
      e'.distanceKm = (match ex.distanceCandidates with
        | x :: _ => numberToString x
        | [] => []) ∧
      (ex.kmPerLiterCandidates ≠ [] → e'.kmPerLiter ≠ []) ∧
      (ex.distanceCandidates ≠ [] → e'.distanceKm ≠ []) := by
  obtain ⟨ex, a, b, hex, ha, hb⟩ := extractOcrCandidates_returns t
  have hne : ∀ l : List JSNum, unique l ≠ [] → prefill (unique l) ≠ [] := by
    intro l hl
    rw [prefill_unique]
    cases h : unique l with
    | nil => exact absurd h hl
    | cons x xs => exact numberToString_ne_nil x
  refine ⟨ex, _, _, hex, handleFileChange_resolved s log t conf ex hex, rfl, ?_, ?_, ?_, ?_⟩
  · rw [ha]; exact prefill_unique _
  · rw [hb]; exact prefill_unique _
  · rw [ha]; exact hne _
  · rw [hb]; exact hne _

/-! ## The candidate lists -/

/-- C3. On "Efficiency: 14.5 km/L, distance 120 km" the extractor collects 14.5
once as an efficiency reading and 120 as the only distance, and returns
`kmPerLiterCandidates = [14.5]` and `distanceCandidates = [120]`. -/
theorem extractOcrCandidates_example :
    extractOcrCandidates (js "Efficiency: 14.5 km/L, distance 120 km") =
      some { rawText := js "Efficiency: 14.5 km/L, distance 120 km",
             kmPerLiterCandidates := [JSNum.fin (29 / 2)],
             distanceCandidates := [JSNum.fin 120] } ∧
    collectKmPerLiter (js "efficiency: 14.5 km/l, distance 120 km") =
      some [JSNum.fin (29 / 2)] ∧
    collectDistance (js "efficiency: 14.5 km/l, distance 120 km") = some [JSNum.fin 120] ∧
    toNumber (js "14.5") = JSNum.fin (29 / 2) ∧ toNumber (js "120") = JSNum.fin 120 := by
  decide!

/-- A value kept by `unique` is a finite number greater than 0. -/
theorem unique_pos (l : List JSNum) (x : JSNum) (h : x ∈ unique l) :
    ∃ v : ℚ, x = JSNum.fin v ∧ 0 < v := by
  obtain ⟨h1, h2⟩ := unique_positive l x h
  cases x with
  | nan => simp [JSNum.isFinite] at h1
  | posInf => simp [JSNum.isFinite] at h1
  | negInf => simp [JSNum.isFinite] at h1
  | fin v =>
    simp only [JSNum.gt, JSNum.lt, decide_eq_true_eq] at h2
    exact ⟨v, rfl, h2⟩

/-- C4 (dedup, order and positivity of candidates). For every text each pattern
yields its matches in text order; the km/L numbers collected are those of the
first pattern followed by those of the second, and likewise for distance after
the window filter. Each returned list is that sequence restricted to the finite
numbers greater than 0, with every repeated value removed except its first
occurrence: so every returned value is finite and greater than 0, none occurs
twice, and the list is a subsequence of what was collected. On
"12 km 12 km 30 km" the distance candidates are `[12, 30]`. -/
theorem extractOcrCandidates_unique (rawText : JSString) :
    ∃ k1 k2 d1 d2 ex,
      allMatches kplPattern1 (toLowerCase (normalizeText rawText)) = some k1 ∧
      allMatches kplPattern2 (toLowerCase (normalizeText rawText)) = some k2 ∧
      allMatches distancePattern1 (toLowerCase (normalizeText rawText)) = some d1 ∧
      allMatches distancePattern2 (toLowerCase (normalizeText rawText)) = some d2 ∧
      k1.Pairwise (fun a b => a.index < b.index) ∧
      k2.Pairwise (fun a b => a.index < b.index) ∧
      d1.Pairwise (fun a b => a.index < b.index) ∧
      d2.Pairwise (fun a b => a.index < b.index) ∧
      extractOcrCandidates rawText = some ex ∧
      ex.kmPerLiterCandidates =
        firstOccurrences (((k1 ++ k2).map matchNumber).filter positiveFinite) ∧
      ex.distanceCandidates =
        firstOccurrences ((((d1 ++ d2).filter
          (fun m => !nearMarker (toLowerCase (normalizeText rawText)) m)).map
            matchNumber).filter positiveFinite) ∧
      (∀ x ∈ ex.kmPerLiterCandidates, ∃ v : ℚ, x = JSNum.fin v ∧ 0 < v) ∧
      (∀ x ∈ ex.distanceCandidates, ∃ v : ℚ, x = JSNum.fin v ∧ 0 < v) ∧
      ex.kmPerLiterCandidates.Nodup ∧ ex.distanceCandidates.Nodup ∧
      ex.kmPerLiterCandidates.Sublist ((k1 ++ k2).map matchNumber) ∧
      ex.distanceCandidates.Sublist (((d1 ++ d2).filter
          (fun m => !nearMarker (toLowerCase (normalizeText rawText)) m)).map matchNumber) ∧
      (extractOcrCandidates (js "12 km 12 km 30 km")).map OcrCandidates.distanceCandidates =
        some [JSNum.fin 12, JSNum.fin 30] := by
  obtain ⟨k1, k2, d1, d2, hk1, hk2, hd1, hd2, hex⟩ := extractOcrCandidates_eq rawText
  refine ⟨k1, k2, d1, d2, _, hk1, hk2, hd1, hd2,
    (execAll_sorted true _ kplPattern1_consumes _ _ _ hk1).2,
    (execAll_sorted true _ kplPattern2_consumes _ _ _ hk2).2,
    (execAll_sorted true _ distancePattern1_consumes _ _ _ hd1).2,
    (execAll_sorted true _ distancePattern2_consumes _ _ _ hd2).2,
    hex, unique_eq _, unique_eq _, unique_pos _, unique_pos _, ?_, ?_, ?_, ?_, ?_⟩
  · simp only [unique_eq]
    exact firstOccurrences_nodup _
  · simp only [unique_eq]
    exact firstOccurrences_nodup _
  · simp only [unique_eq]
    exact (firstOccurrences_sublist _).trans (List.filter_sublist _)
  · simp only [unique_eq]
    exact (firstOccurrences_sublist _).trans (List.filter_sublist _)
  · decide!

theorem isDigit_false_of_isSpace (c : Nat) (h : isSpace c = true) : isDigit c = false := by
  cases hd : isDigit c with
  | false => rfl
  | true =>
    simp only [isDigit, Bool.and_eq_true, decide_eq_true_eq] at hd
    simp only [isSpace, Bool.or_eq_true, beq_iff_eq, Bool.and_eq_true, decide_eq_true_eq] at h
    omega

/-- C10. `extractOcrCandidates` returns for every string, and both candidate
lists are empty whenever none of the four patterns matches: so for every text
without a decimal digit, every text of white space only, and the empty string. -/
theorem extractOcrCandidates_total_empty (rawText : JSString) :
    (∃ ex, extractOcrCandidates rawText = some ex) ∧
    (searchFrom true kplPattern1 0 none (toLowerCase (normalizeText rawText)) = none →
      searchFrom true kplPattern2 0 none (toLowerCase (normalizeText rawText)) = none →
      searchFrom true distancePattern1 0 none (toLowerCase (normalizeText rawText)) = none →
      searchFrom true distancePattern2 0 none (toLowerCase (normalizeText rawText)) = none →
      extractOcrCandidates rawText = some
        { rawText := normalizeText rawText, kmPerLiterCandidates := [],
          distanceCandidates := [] }) ∧
    ((∀ c ∈ rawText, isDigit c = false) →
      extractOcrCandidates rawText = some
        { rawText := normalizeText rawText, kmPerLiterCandidates := [],
          distanceCandidates := [] }) ∧
    ((∀ c ∈ rawText, isSpace c = true) →
      extractOcrCandidates rawText = some
        { rawText := normalizeText rawText, kmPerLiterCandidates := [],
          distanceCandidates := [] }) ∧
    extractOcrCandidates [] =
      some { rawText := [], kmPerLiterCandidates := [], distanceCandidates := [] } := by
  refine ⟨?_, extractOcrCandidates_of_no_match rawText,
    extractOcrCandidates_of_no_digit rawText, ?_, ?_⟩
  · obtain ⟨ex, _, _, hex, _, _⟩ := extractOcrCandidates_returns rawText
    exact ⟨ex, hex⟩
  · intro h
    exact extractOcrCandidates_of_no_digit rawText
      (fun c hc => isDigit_false_of_isSpace c (h c hc))
  · decide

/-- C10, on a text without digits. -/
theorem extractOcrCandidates_total_empty_witness :
    extractOcrCandidates (js "Fuel log: n/a") = some
      { rawText := normalizeText (js "Fuel log: n/a"), kmPerLiterCandidates := [],
        distanceCandidates := [] } :=
  (extractOcrCandidates_total_empty (js "Fuel log: n/a")).2.2.1 (by decide)

/-! ## Efficiency readings and the window filter -/

/-- The longest run comes first among the ways `k*` can match. -/
theorem starRun_head (k : CharClass) (cap : Option JSString) (r : List Nat)
    (hr : ∀ c, r.head? = some c → k.test c = false) :
    ∀ (ds : List Nat) (pos : Nat) (prev : Option Nat), (∀ c ∈ ds, k.test c = true) →
      ∃ pv, (starRun k pos prev cap (ds ++ r)).head? = some ⟨pos + ds.length, pv, r, cap⟩ := by
  intro ds
  induction ds with
  | nil =>
    intro pos prev _
    cases r with
    | nil => exact ⟨prev, by simp [starRun]⟩
    | cons c cs =>
      have := hr c rfl
      exact ⟨prev, by simp [starRun, this]⟩
  | cons d ds ih =>
    intro pos prev hd
    have h1 : k.test d = true := hd d (by simp)
    obtain ⟨pv, hpv⟩ := ih (pos + 1) (some d) (fun c hc => hd c (by simp [hc]))
    refine ⟨pv, ?_⟩
    rw [List.cons_append, starRun]
    simp only [h1, if_true, List.head?_append, hpv, Option.or_some, List.length_cons]
    have : pos + 1 + ds.length = pos + (ds.length + 1) := by omega
    rw [this]

/-- The longest run comes first among the ways `k+` can match. -/
theorem plus_head (ic : Bool) (k : CharClass) (cap : Option JSString) (r : List Nat)
    (hr : ∀ c, r.head? = some c → k.test c = false) (ds : List Nat) (pos : Nat)
    (prev : Option Nat) (hne : ds ≠ []) (hd : ∀ c ∈ ds, k.test c = true) :
    ∃ pv, ((Regex.plus k).run ic ⟨pos, prev, ds ++ r, cap⟩).head? =
      some ⟨pos + ds.length, pv, r, cap⟩ := by
  cases ds with
  | nil => exact absurd rfl hne
  | cons d ds =>
    have h1 : k.test d = true := hd d (by simp)
    obtain ⟨pv, hpv⟩ := starRun_head k cap r hr ds (pos + 1) (some d)
      (fun c hc => hd c (by simp [hc]))
    refine ⟨pv, ?_⟩
    rw [List.cons_append, Regex.run]
    simp only [h1, if_true, hpv, List.length_cons]
    have : pos + 1 + ds.length = pos + (ds.length + 1) := by omega
    rw [this]

/-- If the first way through `a` can be continued by `b`, the first way through
`a b` is that continuation. -/
theorem run_seq_head (ic : Bool) (a b : Regex) (s t u : MState)
    (ha : (a.run ic s).head? = some t) (hb : (b.run ic t).head? = some u) :
    ((Regex.seq a b).run ic s).head? = some u := by
  cases h : a.run ic s with
  | nil => simp [h] at ha
  | cons x xs =>
    simp only [h, List.head?_cons, Option.some.injEq] at ha
    subst ha
    simp [Regex.run, h, List.head?_append, hb]

theorem isDecimalText_split (n : JSString) (hn : isDecimalText n = true) :
    ∃ ip tl, n = ip ++ tl ∧ ip ≠ [] ∧ (∀ c ∈ ip, isDigit c = true) ∧
      (tl = [] ∨ ∃ f, tl = 46 :: f ∧ f ≠ [] ∧ ∀ c ∈ f, isDigit c = true) := by
  unfold isDecimalText at hn
  simp only [Bool.and_eq_true, Bool.not_eq_true', List.isEmpty_eq_false] at hn
  obtain ⟨h1, h2⟩ := hn
  refine ⟨n.takeWhile isDigit, n.dropWhile isDigit, (List.takeWhile_append_dropWhile _ _).symm,
    ?_, ?_, ?_⟩
  · intro h
    simp [h] at h1
  · intro c hc
    exact List.mem_takeWhile_imp hc
  · split at h2
    · rename_i heq
      exact Or.inl heq
    · rename_i f heq
      simp only [Bool.and_eq_true, Bool.not_eq_true', List.all_eq_true] at h2
      refine Or.inr ⟨f, heq, ?_, h2.2⟩
      intro h
      simp [h] at h2
    · simp at h2


theorem run_opt (ic : Bool) (r : Regex) (s : MState) :
    (Regex.opt r).run ic s = r.run ic s ++ [s] := by
  rw [Regex.run]

theorem run_group (ic : Bool) (r : Regex) (s : MState) :
    (Regex.group r).run ic s =
      (r.run ic s).map (fun t => { t with cap := some (s.rest.take (t.pos - s.pos)) }) := by
  rw [Regex.run]

theorem run_opt_head (ic : Bool) (r : Regex) (s t : MState)
    (h : (r.run ic s).head? = some t) : ((Regex.opt r).run ic s).head? = some t := by
  rw [run_opt, List.head?_append, h]
  rfl

theorem run_opt_skip (ic : Bool) (r : Regex) (s : MState) (h : r.run ic s = []) :
    ((Regex.opt r).run ic s).head? = some s := by
  rw [run_opt, h]
  rfl

theorem numberGroup_eq : numberGroup =
    Regex.group (Regex.seq (Regex.plus CharClass.digit)
      (Regex.opt (Regex.seq (Regex.chr 46) (Regex.plus CharClass.digit)))) := by
  decide

/-- The first way through `(\d+(?:\.\d+)?)` on a decimal number followed by
neither a digit nor a dot takes the whole number and captures it. -/
theorem numberGroup_head (ic : Bool) (n r : JSString) (hn : isDecimalText n = true)
    (hr : ∀ c, r.head? = some c → isDigit c = false ∧ c ≠ 46) (pos : Nat) (prev : Option Nat)
    (cap : Option JSString) :
    ∃ pv, (numberGroup.run ic ⟨pos, prev, n ++ r, cap⟩).head? =
      some ⟨pos + n.length, pv, r, some n⟩ := by
  obtain ⟨ip, tl, hsplit, hip, hipd, htl⟩ := isDecimalText_split n hn
  have hrd : ∀ c, r.head? = some c → CharClass.digit.test c = false := fun c hc => (hr c hc).1
  have hinner : ∃ pv, ((Regex.seq (Regex.plus CharClass.digit)
      (Regex.opt (Regex.seq (Regex.chr 46) (Regex.plus CharClass.digit)))).run ic
        ⟨pos, prev, n ++ r, cap⟩).head? = some ⟨pos + n.length, pv, r, cap⟩ := by
    rcases htl with htl | ⟨f, htl, hf, hfd⟩
    · subst htl
      simp only [List.append_nil] at hsplit
      subst hsplit
      obtain ⟨pv, hpv⟩ := plus_head ic CharClass.digit cap r hrd n pos prev hip hipd
      refine ⟨pv, run_seq_head ic _ _ _ _ _ hpv ?_⟩
      apply run_opt_skip
      cases r with
      | nil => simp [Regex.run]
      | cons c cs =>
        have hc : c ≠ 46 := (hr c rfl).2
        have hcan : ¬ (canonicalize ic c = canonicalize ic 46) := by
          unfold canonicalize
          split
          · rename_i h
            simp only [Bool.and_eq_true, decide_eq_true_eq] at h
            simp
            omega
          · simpa using hc
        simp [Regex.run, hcan]
    · subst htl
      subst hsplit
      have h46 : ∀ c, (46 :: f ++ r).head? = some c → CharClass.digit.test c = false := by
        intro c hc
        simp at hc
        subst hc
        decide
      obtain ⟨pv1, hpv1⟩ := plus_head ic CharClass.digit cap (46 :: f ++ r) h46 ip pos prev
        hip hipd
      obtain ⟨pv2, hpv2⟩ := plus_head ic CharClass.digit cap r hrd f (pos + ip.length + 1)
        (some 46) hf hfd
      refine ⟨pv2, ?_⟩
      have e1 : ip ++ 46 :: f ++ r = ip ++ (46 :: f ++ r) := by simp
      have e2 : pos + (ip ++ 46 :: f).length = pos + ip.length + 1 + f.length := by
        simp; omega
      rw [e1, e2]
      refine run_seq_head ic _ _ _ _ _ hpv1 ?_
      have hdot : ((Regex.seq (Regex.chr 46) (Regex.plus CharClass.digit)).run ic
          ⟨pos + ip.length, pv1, 46 :: f ++ r, cap⟩).head? =
          some ⟨pos + ip.length + 1 + f.length, pv2, r, cap⟩ := by
        refine run_seq_head ic _ _ _ ⟨pos + ip.length + 1, some 46, f ++ r, cap⟩ _ ?_ hpv2
        simp [Regex.run]
      exact run_opt_head ic _ _ _ hdot
  obtain ⟨pv, hpv⟩ := hinner
  refine ⟨pv, ?_⟩
  rw [numberGroup_eq, run_group, List.head?_map, hpv]
  simp


theorem isDecimalText_units (n : JSString) (hn : isDecimalText n = true) :
    n ≠ [] ∧ ∀ c ∈ n, isDigit c = true ∨ c = 46 := by
  obtain ⟨ip, tl, hsplit, hip, hipd, htl⟩ := isDecimalText_split n hn
  subst hsplit
  refine ⟨by simp [hip], ?_⟩
  intro c hc
  rcases List.mem_append.mp hc with h | h
  · exact Or.inl (hipd c h)
  · rcases htl with htl | ⟨f, htl, _, hfd⟩
    · subst htl; simp at h
    · subst htl
      rcases List.mem_cons.mp h with h | h
      · exact Or.inr h
      · exact Or.inl (hfd c h)

/-- A number followed by a tail: when the tail pattern has a first way through
the text after the number, the whole pattern's first way is the number, then
that. -/
theorem number_tail_head (ic : Bool) (tail : Regex) (n sfx sfx' : JSString) (k : Nat)
    (pv' : Option Nat) (hn : isDecimalText n = true)
    (hs : ∀ c, sfx.head? = some c → isDigit c = false ∧ c ≠ 46)
    (ht : ∀ p pv c, (tail.run ic ⟨p, pv, sfx, c⟩).head? = some ⟨p + k, pv', sfx', c⟩)
    (pos : Nat) (prev : Option Nat) (cap : Option JSString) :
    ((Regex.seq numberGroup tail).run ic ⟨pos, prev, n ++ sfx, cap⟩).head? =
      some ⟨pos + n.length + k, pv', sfx', some n⟩ := by
  obtain ⟨pv, hpv⟩ := numberGroup_head ic n sfx hn hs pos prev cap
  exact run_seq_head ic _ _ _ _ _ hpv (ht _ _ _)

theorem searchFrom_hit (ic : Bool) (r : Regex) (pos : Nat) (prev : Option Nat) (l : List Nat)
    (t : MState) (h : (r.run ic ⟨pos, prev, l, none⟩).head? = some t) :
    searchFrom ic r pos prev l = some ⟨pos, t⟩ := by
  cases l with
  | nil => simp [searchFrom, h]
  | cons c cs => simp [searchFrom, h]

/-- A loop that finds one match and then none. -/
theorem execAll_single (ic : Bool) (r : Regex) (s : MState) (m : RegexMatch) (fuel : Nat)
    (h1 : searchFrom ic r s.pos s.prev s.rest = some m)
    (h2 : searchFrom ic r m.last.pos m.last.prev m.last.rest = none) :
    execAll ic r (fuel + 2) s = some [m] := by
  simp [execAll, h1, h2]

/-- No match starts inside a stretch of text none of whose units can start one,
nor after it when no digit follows. -/
theorem searchFrom_none_append (ic : Bool) (r : Regex) (hr : r.needsDigit = true)
    (l2 : List Nat) (h2 : ∀ c ∈ l2, isDigit c = false) :
    ∀ (l1 : List Nat) (pos : Nat) (prev : Option Nat),
      (∀ c ∈ l1, ∀ p pv cs, r.run ic ⟨p, pv, c :: cs, none⟩ = []) →
      searchFrom ic r pos prev (l1 ++ l2) = none := by
  intro l1
  induction l1 with
  | nil =>
    intro pos prev _
    exact searchFrom_eq_none_of_no_digit ic r hr l2 pos prev h2
  | cons c cs ih =>
    intro pos prev h1
    have hc := h1 c (by simp) pos prev (cs ++ l2)
    have := ih (pos + 1) (some c) (fun x hx => h1 x (by simp [hx]))
    simp [searchFrom, hc, this]

/-- A search passes over a stretch of text none of whose units can start a match. -/
theorem searchFrom_skip_isSome (ic : Bool) (r : Regex) (l2 : List Nat)
    (h2 : ∀ p pv, (searchFrom ic r p pv l2).isSome = true) :
    ∀ (l1 : List Nat) (pos : Nat) (prev : Option Nat),
      (∀ c ∈ l1, ∀ p pv cs, r.run ic ⟨p, pv, c :: cs, none⟩ = []) →
      (searchFrom ic r pos prev (l1 ++ l2)).isSome = true := by
  intro l1
  induction l1 with
  | nil =>
    intro pos prev _
    exact h2 pos prev
  | cons c cs ih =>
    intro pos prev h1
    have hc := h1 c (by simp) pos prev (cs ++ l2)
    have := ih (pos + 1) (some c) (fun x hx => h1 x (by simp [hx]))
    simp [searchFrom, hc, this]

theorem js_km : js "km" = [107, 109] := by decide
theorem js_per : js "per" = [112, 101, 114] := by decide
theorem js_distance : js "distance" = [100, 105, 115, 116, 97, 110, 99, 101] := by decide
theorem js_trip : js "trip" = [116, 114, 105, 112] := by decide
theorem js_kml : js "km/l" = [107, 109, 47, 108] := by decide
theorem js_km_l : js "km l" = [107, 109, 32, 108] := by decide
theorem js_sfx1 : js " km/l" = [32, 107, 109, 47, 108] := by decide
theorem js_sfx2 : js " km per l" = [32, 107, 109, 32, 112, 101, 114, 32, 108] := by decide

theorem canonicalize_of_digit_or_dot (ic : Bool) (c : Nat) (h : isDigit c = true ∨ c = 46) :
    canonicalize ic c = c ∧ c < 58 ∧ 46 ≤ c ∧ c ≠ 47 := by
  have hc : c < 58 ∧ 46 ≤ c ∧ c ≠ 47 := by
    rcases h with h | h
    · simp only [isDigit, Bool.and_eq_true, decide_eq_true_eq] at h
      omega
    · omega
  refine ⟨?_, hc⟩
  unfold canonicalize
  split
  · rename_i h'
    simp only [Bool.and_eq_true, decide_eq_true_eq] at h'
    omega
  · rfl

theorem run_seq_nil (ic : Bool) (a b : Regex) (s : MState) (h : a.run ic s = []) :
    (Regex.seq a b).run ic s = [] := by
  rw [Regex.run, h]
  rfl

theorem run_alt_nil (ic : Bool) (a b : Regex) (s : MState) (ha : a.run ic s = [])
    (hb : b.run ic s = []) : (Regex.alt a b).run ic s = [] := by
  rw [Regex.run, ha, hb]
  rfl

theorem run_chr_nil (ic : Bool) (k x p : Nat) (pv : Option Nat) (xs : List Nat)
    (cap : Option JSString) (h : canonicalize ic x ≠ canonicalize ic k) :
    (Regex.chr k).run ic ⟨p, pv, x :: xs, cap⟩ = [] := by
  simp [Regex.run, h]

theorem kplPattern2_shape : ∃ a a' b b' c,
    kplPattern2 = Regex.seq (Regex.alt (Regex.seq (Regex.seq (Regex.chr 107) a) a')
      (Regex.seq (Regex.seq (Regex.chr 107) b) b')) c :=
  ⟨_, _, _, _, _, rfl⟩

theorem distancePattern2_shape : ∃ a b c,
    distancePattern2 = Regex.seq (Regex.alt (Regex.seq (Regex.chr 100) a)
      (Regex.seq (Regex.chr 116) b)) c :=
  ⟨_, _, _, rfl⟩

theorem markerPattern_shape : ∃ a b b' c d,
    markerPattern = Regex.alt (Regex.seq (Regex.chr 47) a)
      (Regex.alt (Regex.seq (Regex.seq (Regex.chr 112) b) b')
        (Regex.alt (Regex.seq (Regex.chr 107) c) (Regex.seq (Regex.chr 107) d))) :=
  ⟨_, _, _, _, _, rfl⟩

/-- Neither a digit nor a dot can start a match of the second km/L pattern, of
the second distance pattern or of the marker pattern. -/
theorem cannot_start (c : Nat) (h : isDigit c = true ∨ c = 46) (p : Nat) (pv : Option Nat)
    (cs : List Nat) :
    kplPattern2.run true ⟨p, pv, c :: cs, none⟩ = [] ∧
    distancePattern2.run true ⟨p, pv, c :: cs, none⟩ = [] ∧
    markerPattern.run false ⟨p, pv, c :: cs, none⟩ = [] := by
  obtain ⟨h1, h2, h3, h4⟩ := canonicalize_of_digit_or_dot true c h
  obtain ⟨g1, _⟩ := canonicalize_of_digit_or_dot false c h
  have hne : ∀ (ic : Bool) (k : Nat), 58 ≤ canonicalize ic k ∨ canonicalize ic k = 47 →
      ∀ cap, (Regex.chr k).run ic ⟨p, pv, c :: cs, cap⟩ = [] := by
    intro ic k hk cap
    apply run_chr_nil
    have := (canonicalize_of_digit_or_dot ic c h).1
    rw [this]
    omega
  refine ⟨?_, ?_, ?_⟩
  · obtain ⟨a, a', b, b', d, e⟩ := kplPattern2_shape
    rw [e]
    exact run_seq_nil _ _ _ _ (run_alt_nil _ _ _ _
      (run_seq_nil _ _ _ _ (run_seq_nil _ _ _ _ (hne true 107 (by decide) _)))
      (run_seq_nil _ _ _ _ (run_seq_nil _ _ _ _ (hne true 107 (by decide) _))))
  · obtain ⟨a, b, d, e⟩ := distancePattern2_shape
    rw [e]
    exact run_seq_nil _ _ _ _ (run_alt_nil _ _ _ _
      (run_seq_nil _ _ _ _ (hne true 100 (by decide) _))
      (run_seq_nil _ _ _ _ (hne true 116 (by decide) _)))
  · obtain ⟨a, b, b', d, e, f⟩ := markerPattern_shape
    rw [f]
    exact run_alt_nil _ _ _ _ (run_seq_nil _ _ _ _ (hne false 47 (by decide) _))
      (run_alt_nil _ _ _ _
        (run_seq_nil _ _ _ _ (run_seq_nil _ _ _ _ (hne false 112 (by decide) _)))
        (run_alt_nil _ _ _ _ (run_seq_nil _ _ _ _ (hne false 107 (by decide) _))
          (run_seq_nil _ _ _ _ (hne false 107 (by decide) _))))


/-! ### The texts "<n> km/L" and "<n> km per L" -/

theorem tail_kpl_slash (p : Nat) (pv : Option Nat) (c : Option JSString) :
    ((Regex.cat [Regex.star CharClass.space, kplUnit]).run true ⟨p, pv, js " km/l", c⟩).head? =
      some ⟨p + 5, some 108, [], c⟩ := by
  rw [js_sfx1]
  simp [Regex.cat, kplUnit, Regex.str, Regex.ch, js_km, js_per, Regex.run, starRun,
    CharClass.test, isSpace, canonicalize]

theorem tail_kpl_per (p : Nat) (pv : Option Nat) (c : Option JSString) :
    ((Regex.cat [Regex.star CharClass.space, kplUnit]).run true
        ⟨p, pv, js " km per l", c⟩).head? = some ⟨p + 9, some 108, [], c⟩ := by
  rw [js_sfx2]
  simp [Regex.cat, kplUnit, Regex.str, Regex.ch, js_km, js_per, Regex.run, starRun,
    CharClass.test, isSpace, canonicalize]

theorem tail_distance_slash (p : Nat) (pv : Option Nat) (c : Option JSString) :
    ((Regex.cat [Regex.star CharClass.space, Regex.str "km", Regex.wordB]).run true
        ⟨p, pv, js " km/l", c⟩).head? = some ⟨p + 3, some 109, [47, 108], c⟩ := by
  rw [js_sfx1]
  simp [Regex.cat, Regex.str, js_km, Regex.run, starRun, CharClass.test, isSpace,
    canonicalize, atWordBoundary, isWordChar, isDigit]

theorem tail_distance_per (p : Nat) (pv : Option Nat) (c : Option JSString) :
    ((Regex.cat [Regex.star CharClass.space, Regex.str "km", Regex.wordB]).run true
        ⟨p, pv, js " km per l", c⟩).head? =
      some ⟨p + 3, some 109, [32, 112, 101, 114, 32, 108], c⟩ := by
  rw [js_sfx2]
  simp [Regex.cat, Regex.str, js_km, Regex.run, starRun, CharClass.test, isSpace,
    canonicalize, atWordBoundary, isWordChar, isDigit]

theorem marker_in_slash (p : Nat) (pv : Option Nat) :
    (searchFrom false markerPattern p pv (js " km/l")).isSome = true := by
  rw [js_sfx1]
  simp [searchFrom, markerPattern, Regex.cat, Regex.str, Regex.ch, js_km, js_per, js_kml,
    js_km_l, Regex.run, starRun, CharClass.test, isSpace, canonicalize]

theorem marker_in_per (p : Nat) (pv : Option Nat) :
    (searchFrom false markerPattern p pv (js " km per l")).isSome = true := by
  rw [js_sfx2]
  simp [searchFrom, markerPattern, Regex.cat, Regex.str, Regex.ch, js_km, js_per, js_kml,
    js_km_l, Regex.run, starRun, CharClass.test, isSpace, canonicalize]


theorem collapseAux_append (sfx : List Nat) :
    ∀ (n : List Nat) (b : Bool), (∀ c ∈ n, isSpace c = false) → n ≠ [] →
      collapseAux b (n ++ sfx) = n ++ collapseAux false sfx := by
  intro n
  induction n with
  | nil => intro b _ h; exact absurd rfl h
  | cons c cs ih =>
    intro b h _
    have hc : isSpace c = false := h c (by simp)
    rw [List.cons_append, collapseAux]
    simp only [hc, Bool.false_eq_true, if_false, List.cons_append, List.cons.injEq, true_and]
    cases cs with
    | nil => rfl
    | cons d ds => exact ih false (fun x hx => h x (by simp [hx])) (by simp)

theorem trim_eq_self (x y : Nat) (mid : List Nat) (hx : isSpace x = false)
    (hy : isSpace y = false) : trim (x :: (mid ++ [y])) = x :: (mid ++ [y]) := by
  simp [trim, List.dropWhile, hx, hy]

theorem flatMap_lowerUnit (n : List Nat) (h : ∀ c ∈ n, c < 58) : n.flatMap lowerUnit = n := by
  induction n with
  | nil => rfl
  | cons c cs ih =>
    have hc : c < 58 := h c (by simp)
    have h1 : lowerUnit c = [c] := by
      unfold lowerUnit
      have e1 : ¬ (65 ≤ c ∧ c ≤ 90) := by omega
      have e2 : ¬ (c = 8490) := by omega
      have e3 : ¬ (c = 304) := by omega
      simp [e1, e2, e3]
    simp only [List.flatMap_cons, h1, ih (fun x hx => h x (by simp [hx]))]
    rfl

theorem isSpace_false_of_digit_or_dot (c : Nat) (h : isDigit c = true ∨ c = 46) :
    isSpace c = false := by
  obtain ⟨_, h2, h3, _⟩ := canonicalize_of_digit_or_dot true c h
  cases hs : isSpace c with
  | false => rfl
  | true =>
    simp only [isSpace, Bool.or_eq_true, beq_iff_eq, Bool.and_eq_true, decide_eq_true_eq] at hs
    omega

/-- A decimal number followed by a text that is already normal, ends in no
white space and lower-cases to `sfx`: what `lower` is. -/
theorem lower_number_suffix (n init sfx : JSString) (y : Nat) (hn : isDecimalText n = true)
    (hc : collapseAux false (init ++ [y]) = init ++ [y]) (hy : isSpace y = false)
    (hl : toLowerCase (init ++ [y]) = sfx) :
    normalizeText (n ++ (init ++ [y])) = n ++ (init ++ [y]) ∧
    toLowerCase (normalizeText (n ++ (init ++ [y]))) = n ++ sfx := by
  obtain ⟨hne, hu⟩ := isDecimalText_units n hn
  have hsp : ∀ c ∈ n, isSpace c = false := fun c hc => isSpace_false_of_digit_or_dot c (hu c hc)
  have h58 : ∀ c ∈ n, c < 58 := fun c hc => (canonicalize_of_digit_or_dot true c (hu c hc)).2.1
  have h1 : normalizeText (n ++ (init ++ [y])) = n ++ (init ++ [y]) := by
    unfold normalizeText collapseSpaces
    rw [collapseAux_append _ n false hsp hne, hc]
    cases n with
    | nil => exact absurd rfl hne
    | cons x xs =>
      have hx : isSpace x = false := hsp x (by simp)
      have e : x :: xs ++ (init ++ [y]) = x :: ((xs ++ init) ++ [y]) := by simp
      rw [e]
      exact trim_eq_self x y _ hx hy
  refine ⟨h1, ?_⟩
  rw [h1]
  unfold toLowerCase at hl ⊢
  rw [List.flatMap_append, hl, flatMap_lowerUnit n h58]

theorem unique_singleton (x : JSNum) :
    unique [x] = if positiveFinite x then [x] else [] := by
  unfold unique positiveFinite
  by_cases h : (x.isFinite && x.gt (JSNum.fin 0)) = true
  · simp [h, setAdd]
  · simp [h]

/-- The matches of the four patterns on a decimal number `n` followed by a text
`sfx` without digits that the tails of the first km/L and the first distance
pattern match at its start. -/
theorem matches_number_suffix (n sfx sfx3 : JSString) (k1 k3 : Nat) (pv1 pv3 : Option Nat)
    (hn : isDecimalText n = true) (hs : ∀ c ∈ sfx, isDigit c = false ∧ c ≠ 46)
    (hs3 : ∀ c ∈ sfx3, isDigit c = false)
    (t1 : ∀ p pv c, ((Regex.cat [Regex.star CharClass.space, kplUnit]).run true
      ⟨p, pv, sfx, c⟩).head? = some ⟨p + k1, pv1, [], c⟩)
    (t3 : ∀ p pv c, ((Regex.cat [Regex.star CharClass.space, Regex.str "km",
      Regex.wordB]).run true ⟨p, pv, sfx, c⟩).head? = some ⟨p + k3, pv3, sfx3, c⟩) :
    allMatches kplPattern1 (n ++ sfx) = some [⟨0, ⟨n.length + k1, pv1, [], some n⟩⟩] ∧
    allMatches kplPattern2 (n ++ sfx) = some [] ∧
    allMatches distancePattern1 (n ++ sfx) =
      some [⟨0, ⟨n.length + k3, pv3, sfx3, some n⟩⟩] ∧
    allMatches distancePattern2 (n ++ sfx) = some [] := by
  obtain ⟨hne, hu⟩ := isDecimalText_units n hn
  have hhead : ∀ c, sfx.head? = some c → isDigit c = false ∧ c ≠ 46 := by
    intro c hc
    exact hs c (List.mem_of_mem_head? hc)
  have hsd : ∀ c ∈ sfx, isDigit c = false := fun c hc => (hs c hc).1
  have hfuel : ∃ f, (n ++ sfx).length + 1 = f + 2 := by
    cases n with
    | nil => exact absurd rfl hne
    | cons x xs => exact ⟨(xs ++ sfx).length, by simp⟩
  obtain ⟨f, hf⟩ := hfuel
  have e1 : kplPattern1 = Regex.seq numberGroup
      (Regex.cat [Regex.star CharClass.space, kplUnit]) := rfl
  have e3 : distancePattern1 = Regex.seq numberGroup
      (Regex.cat [Regex.star CharClass.space, Regex.str "km", Regex.wordB]) := rfl
  refine ⟨?_, ?_, ?_, ?_⟩
  · unfold allMatches
    rw [hf]
    apply execAll_single
    · apply searchFrom_hit
      rw [e1]
      simpa using number_tail_head true _ n sfx [] k1 pv1 hn hhead t1 0 none none
    · exact searchFrom_eq_none_of_no_digit true _ kplPattern1_needsDigit [] _ _ (by simp)
  · apply allMatches_of_search_none
    exact searchFrom_none_append true _ kplPattern2_needsDigit sfx hsd n 0 none
      (fun c hc p pv cs => (cannot_start c (hu c hc) p pv cs).1)
  · unfold allMatches
    rw [hf]
    apply execAll_single
    · apply searchFrom_hit
      rw [e3]
      simpa using number_tail_head true _ n sfx sfx3 k3 pv3 hn hhead t3 0 none none
    · exact searchFrom_eq_none_of_no_digit true _ distancePattern1_needsDigit sfx3 _ _ hs3
  · apply allMatches_of_search_none
    exact searchFrom_none_append true _ distancePattern2_needsDigit sfx hsd n 0 none
      (fun c hc p pv cs => (cannot_start c (hu c hc) p pv cs).2.1)

/-- The window test on a match at index 0 of a text of at most 12 units made of a
decimal number and a text that holds a marker. -/
theorem nearMarker_number_suffix (n sfx : JSString) (last : MState)
    (hn : isDecimalText n = true) (hlen : (n ++ sfx).length ≤ 12)
    (hm : ∀ p pv, (searchFrom false markerPattern p pv sfx).isSome = true) :
    nearMarker (n ++ sfx) ⟨0, last⟩ = true := by
  obtain ⟨_, hu⟩ := isDecimalText_units n hn
  unfold nearMarker slice Regex.test
  simp only [Nat.zero_sub, Nat.zero_add, List.drop_zero]
  rw [List.take_of_length_le hlen]
  exact searchFrom_skip_isSome false _ sfx hm n 0 none
    (fun c hc p pv cs => (cannot_start c (hu c hc) p pv cs).2.2)


/-- What the extractor returns on a decimal number `n` followed by a unit text. -/
theorem extract_number_suffix (n init sfx sfx3 : JSString) (y k1 k3 : Nat)
    (pv1 pv3 : Option Nat) (hn : isDecimalText n = true)
    (hc : collapseAux false (init ++ [y]) = init ++ [y]) (hy : isSpace y = false)
    (hl : toLowerCase (init ++ [y]) = sfx)
    (hs : ∀ c ∈ sfx, isDigit c = false ∧ c ≠ 46) (hs3 : ∀ c ∈ sfx3, isDigit c = false)
    (t1 : ∀ p pv c, ((Regex.cat [Regex.star CharClass.space, kplUnit]).run true
      ⟨p, pv, sfx, c⟩).head? = some ⟨p + k1, pv1, [], c⟩)
    (t3 : ∀ p pv c, ((Regex.cat [Regex.star CharClass.space, Regex.str "km",
      Regex.wordB]).run true ⟨p, pv, sfx, c⟩).head? = some ⟨p + k3, pv3, sfx3, c⟩) :
    extractOcrCandidates (n ++ (init ++ [y])) = some
      { rawText := n ++ (init ++ [y])
        kmPerLiterCandidates := if positiveFinite (toNumber n) then [toNumber n] else []
        distanceCandidates :=
          if nearMarker (n ++ sfx) ⟨0, ⟨n.length + k3, pv3, sfx3, some n⟩⟩ then []
          else if positiveFinite (toNumber n) then [toNumber n] else [] } := by
  obtain ⟨h1, h2⟩ := lower_number_suffix n init sfx y hn hc hy hl
  obtain ⟨m1, m2, m3, m4⟩ := matches_number_suffix n sfx sfx3 k1 k3 pv1 pv3 hn hs hs3 t1 t3
  rw [h1] at h2
  unfold extractOcrCandidates
  simp only [h1]
  simp only [h2, collectKmPerLiter, collectDistance, m1, m2, m3, m4, List.append_nil,
    List.map_cons, List.map_nil, matchNumber, unique_singleton, List.filter_cons,
    List.filter_nil]
  cases hnm : nearMarker (n ++ sfx) ⟨0, ⟨n.length + k3, pv3, sfx3, some n⟩⟩
  · simp [unique_singleton, matchNumber]
  · simp [unique_nil]

/-- C2, as stated, fails: "14.5 km per L" and "12345678 km/L" are efficiency
readings whose number is returned as a distance candidate, the marker lying
beyond the 12 units looked at from the start of the match; and for the decimal
number 0 the km/L list of "0 km/L" is empty, not `[0]`. -/
theorem extractOcrCandidates_leak_counterexample :
    (extractOcrCandidates (js "14.5 km per L")).map OcrCandidates.distanceCandidates =
      some [JSNum.fin (29 / 2)] ∧
    (extractOcrCandidates (js "12345678 km/L")).map OcrCandidates.distanceCandidates =
      some [JSNum.fin 12345678] ∧
    (extractOcrCandidates (js "0 km/L")).map OcrCandidates.kmPerLiterCandidates = some [] := by
  decide!

/-- C2 (efficiency readings and distance candidates), amended. Every distance
candidate comes from a distance match whose window
`lower.slice(max(0, index - 8), index + 12)` holds no efficiency marker, and
every such match with a finite number greater than 0 gives a candidate: a match
is dropped exactly when that window holds a marker. For every decimal number
`n`, the km/L list of "<n> km/L" and of "<n> km per L" is `[Number(n)]` when
`Number(n)` is finite and greater than 0 and empty otherwise; the distance list
is empty for "<n> km/L" when `n` has at most 7 characters and for
"<n> km per L" when it has at most 3. -/
theorem extractOcrCandidates_efficiency (n : JSString) (hn : isDecimalText n = true) :
    (∀ rawText : JSString, ∃ d1 d2 ex,
      allMatches distancePattern1 (toLowerCase (normalizeText rawText)) = some d1 ∧
      allMatches distancePattern2 (toLowerCase (normalizeText rawText)) = some d2 ∧
      extractOcrCandidates rawText = some ex ∧
      (∀ x ∈ ex.distanceCandidates, ∃ m ∈ d1 ++ d2,
        nearMarker (toLowerCase (normalizeText rawText)) m = false ∧ matchNumber m = x) ∧
      (∀ m ∈ d1 ++ d2, nearMarker (toLowerCase (normalizeText rawText)) m = false →
        positiveFinite (matchNumber m) = true → matchNumber m ∈ ex.distanceCandidates)) ∧
    (extractOcrCandidates (n ++ js " km/L")).map OcrCandidates.kmPerLiterCandidates =
      some (if positiveFinite (toNumber n) then [toNumber n] else []) ∧
    (n.length ≤ 7 →
      (extractOcrCandidates (n ++ js " km/L")).map OcrCandidates.distanceCandidates =
        some []) ∧
    (extractOcrCandidates (n ++ js " km per L")).map OcrCandidates.kmPerLiterCandidates =
      some (if positiveFinite (toNumber n) then [toNumber n] else []) ∧
    (n.length ≤ 3 →
      (extractOcrCandidates (n ++ js " km per L")).map OcrCandidates.distanceCandidates =
        some []) := by
  have ea : js " km/L" = [32, 107, 109, 47] ++ [76] := by decide
  have eb : js " km per L" = [32, 107, 109, 32, 112, 101, 114, 32] ++ [76] := by decide
  have ha := extract_number_suffix n [32, 107, 109, 47] (js " km/l") [47, 108] 76 5 3
    (some 108) (some 109) hn (by decide) (by decide) (by decide) (by decide) (by decide)
    tail_kpl_slash tail_distance_slash
  have hb := extract_number_suffix n [32, 107, 109, 32, 112, 101, 114, 32] (js " km per l")
    [32, 112, 101, 114, 32, 108] 76 9 3 (some 108) (some 109) hn (by decide) (by decide)
    (by decide) (by decide) (by decide) tail_kpl_per tail_distance_per
  rw [← ea] at ha
  rw [← eb] at hb
  refine ⟨?_, ?_, ?_, ?_, ?_⟩
  · intro rawText
    obtain ⟨k1, k2, d1, d2, _, _, hd1, hd2, hex⟩ := extractOcrCandidates_eq rawText
    refine ⟨d1, d2, _, hd1, hd2, hex, ?_, ?_⟩
    · intro x hx
      simp only [unique_eq] at hx
      have h1 := (firstOccurrences_filter_mem _ x).mp hx
      have h2 := (List.mem_filter.mp h1).1
      obtain ⟨m, hm, hmx⟩ := List.mem_map.mp h2
      obtain ⟨hm1, hm2⟩ := List.mem_filter.mp hm
      exact ⟨m, hm1, by simpa using hm2, hmx⟩
    · intro m hm hnm hpos
      simp only [unique_eq]
      apply (firstOccurrences_filter_mem _ _).mpr
      apply List.mem_filter.mpr
      refine ⟨List.mem_map.mpr ⟨m, List.mem_filter.mpr ⟨hm, by simp [hnm]⟩, rfl⟩, hpos⟩
  · rw [ha]
    rfl
  · intro hlen
    have hnear := nearMarker_number_suffix n (js " km/l")
      ⟨n.length + 3, some 109, [47, 108], some n⟩ hn
      (by rw [js_sfx1]; simp; omega) marker_in_slash
    rw [ha]
    simp [hnear]
  · rw [hb]
    rfl
  · intro hlen
    have hnear := nearMarker_number_suffix n (js " km per l")
      ⟨n.length + 3, some 109, [32, 112, 101, 114, 32, 108], some n⟩ hn
      (by rw [js_sfx2]; simp; omega) marker_in_per
    rw [hb]
    simp [hnear]

/-- C2, at the number 14.5. -/
theorem extractOcrCandidates_efficiency_witness :
    (extractOcrCandidates (js "14.5" ++ js " km/L")).map OcrCandidates.distanceCandidates =
      some [] :=
  (extractOcrCandidates_efficiency (js "14.5") (by decide)).2.2.1 (by decide)

/-! ## The window filter and the keyword pattern -/

/-- C12, as stated, fails: in "14.5 km/L distance 120" the distance-keyword
pattern matches the finite positive number 120, an efficiency marker stands in
the window of that match, and 120 is not among the distance candidates. -/
theorem keyword_window_counterexample :
    (allMatches distancePattern2
        (toLowerCase (normalizeText (js "14.5 km/L distance 120")))).map
      (List.map matchNumber) = some [JSNum.fin 120] ∧
    positiveFinite (JSNum.fin 120) = true ∧
    (allMatches distancePattern2
        (toLowerCase (normalizeText (js "14.5 km/L distance 120")))).map
      (List.map (nearMarker (toLowerCase (normalizeText (js "14.5 km/L distance 120"))))) =
        some [true] ∧
    (extractOcrCandidates (js "14.5 km/L distance 120")).map
      OcrCandidates.distanceCandidates = some [] := by
  decide!

/-- C12 (the exclusion window and the distance-keyword pattern), amended. The
window test is applied to the matches of both distance patterns. For every
text, a finite number greater than 0 matched by the distance-keyword pattern is
among the distance candidates whenever the window
`lower.slice(max(0, index - 8), index + 12)` of that match holds no efficiency
marker; a number all of whose distance matches have a marker in their window is
not a candidate. So "distance 120" gives `[120]` and "14.5 km/L distance 120"
gives no distance candidate. -/
theorem keyword_window (rawText : JSString) :
    ∃ d1 d2 ex,
      allMatches distancePattern1 (toLowerCase (normalizeText rawText)) = some d1 ∧
      allMatches distancePattern2 (toLowerCase (normalizeText rawText)) = some d2 ∧
      extractOcrCandidates rawText = some ex ∧
      (∀ m ∈ d2, nearMarker (toLowerCase (normalizeText rawText)) m = false →
        positiveFinite (matchNumber m) = true → matchNumber m ∈ ex.distanceCandidates) ∧
      (∀ x : JSNum,
        (∀ m ∈ d1 ++ d2, matchNumber m = x →
          nearMarker (toLowerCase (normalizeText rawText)) m = true) →
        x ∉ ex.distanceCandidates) ∧
      (extractOcrCandidates (js "distance 120")).map OcrCandidates.distanceCandidates =
        some [JSNum.fin 120] ∧
      (extractOcrCandidates (js "14.5 km/L distance 120")).map
        OcrCandidates.distanceCandidates = some [] := by
  obtain ⟨k1, k2, d1, d2, _, _, hd1, hd2, hex⟩ := extractOcrCandidates_eq rawText
  refine ⟨d1, d2, _, hd1, hd2, hex, ?_, ?_, by decide!, by decide!⟩
  · intro m hm hnm hpos
    simp only [unique_eq]
    apply (firstOccurrences_filter_mem _ _).mpr
    apply List.mem_filter.mpr
    refine ⟨List.mem_map.mpr ⟨m, List.mem_filter.mpr ⟨?_, by simp [hnm]⟩, rfl⟩, hpos⟩
    exact List.mem_append.mpr (Or.inr hm)
  · intro x hall hx
    simp only [unique_eq] at hx
    have h1 := (firstOccurrences_filter_mem _ x).mp hx
    have h2 := (List.mem_filter.mp h1).1
    obtain ⟨m, hm, hmx⟩ := List.mem_map.mp h2
    obtain ⟨hm1, hm2⟩ := List.mem_filter.mp hm
    have := hall m hm1 hmx
    simp [this] at hm2

/-! ## The contrast transform in binary64 -/

theorem log2Aux_spec : ∀ (fuel n : Nat), n ≤ fuel → 0 < n →
    2 ^ log2Aux fuel n ≤ n ∧ n < 2 ^ (log2Aux fuel n + 1) := by
  intro fuel
  induction fuel with
  | zero => intro n h h0; omega
  | succ f ih =>
    intro n h h0
    unfold log2Aux
    split
    · simp
      omega
    · rename_i h2
      have hdiv : n / 2 ≤ f := by omega
      have hpos : 0 < n / 2 := by omega
      obtain ⟨h3, h4⟩ := ih (n / 2) hdiv hpos
      rw [pow_succ] at h4
      constructor
      · rw [pow_succ]; omega
      · rw [pow_succ, pow_succ]; omega

theorem log2_spec (n : Nat) (h0 : 0 < n) : 2 ^ log2 n ≤ n ∧ n < 2 ^ (log2 n + 1) :=
  log2Aux_spec n n (le_refl n) h0

/-- The exponent found for a positive `n / d` below `2 ^ k` is below `k`. -/
theorem floorLog2_lt (n d k : Nat) (hn : 0 < n) (hd : 0 < d) (h : n < d * 2 ^ k) :
    floorLog2 n d ≤ (k : Int) - 1 := by
  unfold floorLog2
  simp only
  split
  · rename_i hp
    unfold pow2Le at hp
    split at hp
    · rename_i e j hj
      simp only [decide_eq_true_eq] at hp
      have hjk : j < k := by
        by_contra hcon
        have : 2 ^ k ≤ 2 ^ j := Nat.pow_le_pow_right (by norm_num) (not_lt.mp hcon)
        have : d * 2 ^ k ≤ d * 2 ^ j := Nat.mul_le_mul_left d this
        omega
      rw [hj]
      simp only [Int.ofNat_eq_coe]
      omega
    · rename_i e j hj
      rw [hj]
      have : Int.negSucc j < 0 := Int.negSucc_lt_zero j
      omega
  · have h1 := (log2_spec n hn).1
    have h2 := (log2_spec d hd).2
    have hle : log2 n ≤ log2 d + k := by
      by_contra hcon
      have hge : log2 d + 1 + k ≤ log2 n := by omega
      have : 2 ^ (log2 d + 1 + k) ≤ 2 ^ log2 n := Nat.pow_le_pow_right (by norm_num) hge
      rw [pow_add] at this
      have : d * 2 ^ k < 2 ^ (log2 d + 1) * 2 ^ k :=
        Nat.mul_lt_mul_of_pos_right h2 (pow_pos (by norm_num) k)
      omega
    omega

theorem roundHalfEven_err (n d : Nat) (hd : 0 < d) :
    |((roundHalfEven n d : Nat) : ℚ) - (n : ℚ) / d| ≤ 1 / 2 := by
  have hdq : (0 : ℚ) < d := by exact_mod_cast hd
  have hdiv : (n : ℚ) = (d : ℚ) * ((n / d : Nat) : ℚ) + ((n % d : Nat) : ℚ) := by
    exact_mod_cast (Nat.div_add_mod n d).symm
  have hmod : ((n % d : Nat) : ℚ) < d := by exact_mod_cast Nat.mod_lt n hd
  have hmod0 : (0 : ℚ) ≤ ((n % d : Nat) : ℚ) := by positivity
  have hq : (n : ℚ) / d = ((n / d : Nat) : ℚ) + ((n % d : Nat) : ℚ) / d := by
    rw [hdiv]
    field_simp
    ring
  have hr0 : (0 : ℚ) ≤ ((n % d : Nat) : ℚ) / d := div_nonneg hmod0 (le_of_lt hdq)
  have hr1 : ((n % d : Nat) : ℚ) / d < 1 := (div_lt_one hdq).mpr hmod
  unfold roundHalfEven
  simp only
  rw [hq, abs_le]
  split
  · rename_i h
    have : (2 : ℚ) * ((n % d : Nat) : ℚ) < d := by exact_mod_cast h
    have : ((n % d : Nat) : ℚ) / d < 1 / 2 := by
      rw [div_lt_iff₀ hdq]; linarith
    constructor <;> linarith
  · rename_i h
    split
    · rename_i h'
      have : (d : ℚ) < 2 * ((n % d : Nat) : ℚ) := by exact_mod_cast h'
      have : 1 / 2 < ((n % d : Nat) : ℚ) / d := by
        rw [lt_div_iff₀ hdq]; linarith
      push_cast
      constructor <;> linarith
    · rename_i h'
      have h2 : (2 : ℚ) * ((n % d : Nat) : ℚ) = d := by
        have : 2 * (n % d) = d := by omega
        exact_mod_cast this
      have : ((n % d : Nat) : ℚ) / d = 1 / 2 := by
        rw [div_eq_iff (ne_of_gt hdq)]; linarith
      split
      · constructor <;> linarith
      · push_cast
        constructor <;> linarith


/-- Rounding a positive rational below `2 ^ k` (`k ≤ 52`) gives a finite double
within half a unit in the last place of `2 ^ k`. -/
theorem roundPos_err (n d k : Nat) (hn : 0 < n) (hd : 0 < d) (hk : k ≤ 52)
    (h : n < d * 2 ^ k) :
    ∃ v : ℚ, roundPos n d = JSNum.fin v ∧ 0 ≤ v ∧ |v - (n : ℚ) / d| ≤ 2 ^ k / 2 ^ 54 := by
  have he := floorLog2_lt n d k hn hd h
  have hdq : (0 : ℚ) < d := by exact_mod_cast hd
  unfold roundPos
  simp only
  split
  · rename_i p j hj
    have : (0 : Int) ≤ Int.ofNat j := Int.ofNat_nonneg j
    omega
  · rename_i p j hj
    have hj' : 53 ≤ j + 1 + k := by
      have : Int.negSucc j = -((j : Int) + 1) := rfl
      omega
    have hP : (0 : ℚ) < (2 : ℚ) ^ (j + 1) := by positivity
    have hpow : (2 : ℚ) ^ 53 ≤ (2 : ℚ) ^ (j + 1) * 2 ^ k := by
      rw [← pow_add]
      exact pow_le_pow_right₀ (by norm_num) hj'
    have hr := roundHalfEven_err (n * 2 ^ (j + 1)) d hd
    refine ⟨_, rfl, ?_, ?_⟩
    · rw [Rat.mkRat_eq_div]
      positivity
    · rw [Rat.mkRat_eq_div]
      push_cast at hr ⊢
      have e : ((roundHalfEven (n * 2 ^ (j + 1)) d : Nat) : ℚ) / 2 ^ (j + 1) - (n : ℚ) / d =
          (((roundHalfEven (n * 2 ^ (j + 1)) d : Nat) : ℚ) - (n : ℚ) * 2 ^ (j + 1) / d) /
            2 ^ (j + 1) := by
        field_simp
        ring
      rw [e, abs_div, abs_of_pos hP, div_le_div_iff₀ hP (by positivity)]
      have h54 : (2 : ℚ) ^ 54 = 2 * 2 ^ 53 := by norm_num
      have hk0 : (0 : ℚ) < (2 : ℚ) ^ k := by positivity
      calc |((roundHalfEven (n * 2 ^ (j + 1)) d : Nat) : ℚ) - (n : ℚ) * 2 ^ (j + 1) / d| * 2 ^ 54
          ≤ 1 / 2 * 2 ^ 54 := by
            apply mul_le_mul_of_nonneg_right hr (by positivity)
        _ = 2 ^ 53 := by norm_num
        _ ≤ 2 ^ (j + 1) * 2 ^ k := hpow
        _ = 2 ^ k * 2 ^ (j + 1) := by ring

theorem natAbs_div_den (q : ℚ) : ((q.num.natAbs : Nat) : ℚ) / q.den = |q| := by
  have h1 : ((q.num.natAbs : Nat) : ℚ) = |(q.num : ℚ)| := by
    rw [Nat.cast_natAbs, Int.cast_abs]
  have hden : (0 : ℚ) < q.den := by exact_mod_cast q.den_pos
  rw [h1]
  conv_rhs => rw [← Rat.num_div_den q]
  rw [abs_div, abs_of_pos hden]

/-- Rounding a rational of absolute value below `2 ^ k` (`k ≤ 52`) gives a
finite double within half a unit in the last place of `2 ^ k`. -/
theorem roundToDouble_err (q : ℚ) (k : Nat) (hk : k ≤ 52) (h : |q| < 2 ^ k) :
    ∃ v : ℚ, roundToDouble q = JSNum.fin v ∧ |v - q| ≤ 2 ^ k / 2 ^ 54 := by
  have hden : (0 : ℚ) < q.den := by exact_mod_cast q.den_pos
  unfold roundToDouble
  split
  · rename_i h0
    refine ⟨0, rfl, ?_⟩
    rw [h0]
    simp
    positivity
  · rename_i h0
    have hnat : q.num.natAbs < q.den * 2 ^ k := by
      have h1 := natAbs_div_den q
      rw [← h1, div_lt_iff₀ hden] at h
      have : ((q.num.natAbs : Nat) : ℚ) < ((q.den * 2 ^ k : Nat) : ℚ) := by
        push_cast
        linarith
      exact_mod_cast this
    have hpos : 0 < q.num.natAbs := by
      have : q.num ≠ 0 := Rat.num_ne_zero.mpr h0
      omega
    obtain ⟨v, hv, hv0, herr⟩ := roundPos_err q.num.natAbs q.den k hpos q.den_pos hk hnat
    rw [natAbs_div_den] at herr
    split
    · rename_i hq
      rw [abs_of_pos hq] at herr
      exact ⟨v, hv, herr⟩
    · rename_i hq
      have hneg : q < 0 := lt_of_le_of_ne (not_lt.mp hq) h0
      rw [abs_of_neg hneg] at herr
      rw [hv]
      refine ⟨-v, rfl, ?_⟩
      have : -v - q = -(v - -q) := by ring
      rw [this, abs_neg]
      exact herr


theorem literal_0299 : roundToDouble (299 / 1000) =
    JSNum.fin (5386305154335113 / 18014398509481984) := by
  decide!

theorem literal_0587 : roundToDouble (587 / 1000) =
    JSNum.fin (2643612981266481 / 4503599627370496) := by
  decide!

theorem literal_0114 : roundToDouble (114 / 1000) =
    JSNum.fin (8214565720323785 / 72057594037927936) := by
  decide!

theorem literal_135 : roundToDouble (135 / 100) =
    JSNum.fin (3039929748475085 / 2251799813685248) := by
  decide!

theorem clamp_eq (x : ℚ) : clamp x 0 255 = max 0 (min 255 x) := by
  unfold clamp
  rcases lt_trichotomy x 0 with h | h | h
  · rw [if_pos h, min_eq_right (by linarith), max_eq_left (by linarith)]
  · rw [if_neg (by linarith), if_neg (by linarith), min_eq_right (by linarith),
      max_eq_right (by linarith)]
  · rw [if_neg (by linarith)]
    by_cases h2 : 255 < x
    · rw [if_pos h2, min_eq_left (by linarith), max_eq_right (by norm_num)]
    · rw [if_neg h2, min_eq_right (by linarith), max_eq_right (by linarith)]

/-- Clamping does not move two numbers apart. -/
theorem clamp_close (a b e : ℚ) (h : |a - b| ≤ e) :
    |max 0 (min 255 a) - max 0 (min 255 b)| ≤ e := by
  have h1 : |min 255 a - min 255 b| ≤ |a - b| := by
    have := abs_min_sub_min_le_max (255 : ℚ) a 255 b
    simpa using this
  have h2 := abs_max_sub_max_le_max (0 : ℚ) (min 255 a) 0 (min 255 b)
  have h3 : |max 0 (min 255 a) - max 0 (min 255 b)| ≤ |min 255 a - min 255 b| := by
    simpa using h2
  linarith

/-- The clamp of line 87 on a finite number. -/
theorem max_min_fin (w : ℚ) :
    JSNum.max (JSNum.fin 0) (JSNum.min (JSNum.fin 255) (JSNum.fin w)) =
      JSNum.fin (max 0 (min 255 w)) := by
  by_cases h1 : w < 255
  · have e1 : JSNum.min (JSNum.fin 255) (JSNum.fin w) = JSNum.fin w := by
      simp [JSNum.min, JSNum.lt, h1]
    rw [e1, min_eq_right (le_of_lt h1)]
    by_cases h2 : 0 < w
    · simp [JSNum.max, JSNum.lt, h2, max_eq_right (le_of_lt h2)]
    · simp [JSNum.max, JSNum.lt, h2, max_eq_left (not_lt.mp h2)]
  · have e1 : JSNum.min (JSNum.fin 255) (JSNum.fin w) = JSNum.fin 255 := by
      simp [JSNum.min, JSNum.lt, h1]
    rw [e1, min_eq_left (not_lt.mp h1)]
    simp [JSNum.max, JSNum.lt]


/-- The luminance computed in binary64 for three bytes is a finite double within
`10⁻¹³` of the exact luminance. -/
theorem gray_err (R G B : Nat) (hR : R ≤ 255) (hG : G ≤ 255) (hB : B ≤ 255) :
    ∃ y : ℚ, gray (JSNum.fin R) (JSNum.fin G) (JSNum.fin B) = JSNum.fin y ∧
      |y - luminance R G B| ≤ 1 / 10 ^ 13 := by
  have hr0 : (0 : ℚ) ≤ R := by positivity
  have hg0 : (0 : ℚ) ≤ G := by positivity
  have hb0 : (0 : ℚ) ≤ B := by positivity
  have hr : (R : ℚ) ≤ 255 := by exact_mod_cast hR
  have hg : (G : ℚ) ≤ 255 := by exact_mod_cast hG
  have hb : (B : ℚ) ≤ 255 := by exact_mod_cast hB
  obtain ⟨p1, hp1, e1⟩ := roundToDouble_err (5386305154335113 / 18014398509481984 * R) 7
    (by norm_num) (by rw [abs_lt]; constructor <;> norm_num <;> linarith)
  obtain ⟨p2, hp2, e2⟩ := roundToDouble_err (2643612981266481 / 4503599627370496 * G) 8
    (by norm_num) (by rw [abs_lt]; constructor <;> norm_num <;> linarith)
  obtain ⟨p3, hp3, e3⟩ := roundToDouble_err (8214565720323785 / 72057594037927936 * B) 5
    (by norm_num) (by rw [abs_lt]; constructor <;> norm_num <;> linarith)
  rw [abs_le] at e1 e2 e3
  norm_num at e1 e2 e3
  obtain ⟨s1, hs1, e4⟩ := roundToDouble_err (p1 + p2) 8 (by norm_num)
    (by rw [abs_lt]; constructor <;> norm_num <;> linarith)
  rw [abs_le] at e4
  norm_num at e4
  obtain ⟨y, hy, e5⟩ := roundToDouble_err (s1 + p3) 8 (by norm_num)
    (by rw [abs_lt]; constructor <;> norm_num <;> linarith)
  rw [abs_le] at e5
  norm_num at e5
  refine ⟨y, ?_, ?_⟩
  · simp only [gray, literal_0299, literal_0587, literal_0114, JSNum.mul, JSNum.add, hp1, hp2,
      hp3, hs1, hy]
  · unfold luminance
    rw [abs_le]
    constructor <;> norm_num <;> linarith

/-- The value computed by line 87 from a finite luminance near an exact one in
`[0, 255]` is a finite double in `[0, 255]` near the exact contrast stretch. -/
theorem contrasted_err (y Y : ℚ) (hY0 : 0 ≤ Y) (hY : Y ≤ 255) (hy : |y - Y| ≤ 1 / 10 ^ 13) :
    ∃ v : ℚ, contrasted (JSNum.fin y) = JSNum.fin v ∧ 0 ≤ v ∧ v ≤ 255 ∧
      |v - contrastStretch Y| ≤ 1 / 10 ^ 12 := by
  rw [abs_le] at hy
  norm_num at hy
  obtain ⟨t, ht, e6⟩ := roundToDouble_err (y + -128) 8 (by norm_num)
    (by rw [abs_lt]; constructor <;> norm_num <;> linarith)
  rw [abs_le] at e6
  norm_num at e6
  obtain ⟨u, hu, e7⟩ := roundToDouble_err (t * (3039929748475085 / 2251799813685248)) 8
    (by norm_num) (by rw [abs_lt]; constructor <;> norm_num <;> linarith)
  rw [abs_le] at e7
  norm_num at e7
  obtain ⟨w, hw, e8⟩ := roundToDouble_err (u + 128) 9 (by norm_num)
    (by rw [abs_lt]; constructor <;> norm_num <;> linarith)
  rw [abs_le] at e8
  norm_num at e8
  refine ⟨max 0 (min 255 w), ?_, le_max_left _ _, max_le (by norm_num) (min_le_left _ _), ?_⟩
  · simp only [contrasted, literal_135, JSNum.sub, JSNum.neg, JSNum.mul, JSNum.add, ht, hu, hw,
      max_min_fin]
  · unfold contrastStretch
    rw [clamp_eq]
    apply clamp_close
    rw [abs_le]
    constructor <;> norm_num <;> linarith


theorem roundPos_cases (n d : Nat) :
    (∃ v, roundPos n d = JSNum.fin v) ∨ roundPos n d = JSNum.posInf := by
  unfold roundPos
  simp only
  split
  · split
    · exact Or.inr rfl
    · exact Or.inl ⟨_, rfl⟩
  · exact Or.inl ⟨_, rfl⟩

theorem roundToDouble_ne_nan (q : ℚ) : roundToDouble q ≠ JSNum.nan := by
  unfold roundToDouble
  split
  · simp
  · split
    · rcases roundPos_cases q.num.natAbs q.den with ⟨v, hv⟩ | hv <;> simp [hv]
    · rcases roundPos_cases q.num.natAbs q.den with ⟨v, hv⟩ | hv <;> simp [hv]

/-- Line 87 gives a finite number from 0 to 255 for every luminance that is a
number. -/
theorem contrasted_range (y : JSNum) (hy : y ≠ JSNum.nan) :
    ∃ v : ℚ, contrasted y = JSNum.fin v ∧ 0 ≤ v ∧ v ≤ 255 := by
  have hc : (0 : ℚ) < 3039929748475085 / 2251799813685248 := by norm_num
  have hc' : ¬ ((3039929748475085 : ℚ) / 2251799813685248 = 0) := ne_of_gt hc
  have hclamp : ∀ x : JSNum, x ≠ JSNum.nan →
      ∃ v : ℚ, JSNum.max (JSNum.fin 0) (JSNum.min (JSNum.fin 255) x) = JSNum.fin v ∧
        0 ≤ v ∧ v ≤ 255 := by
    intro x hx
    cases x with
    | nan => exact absurd rfl hx
    | posInf => exact ⟨255, by simp [JSNum.max, JSNum.min, JSNum.lt], by norm_num, le_refl _⟩
    | negInf => exact ⟨0, by simp [JSNum.max, JSNum.min, JSNum.lt], le_refl _, by norm_num⟩
    | fin w =>
      exact ⟨_, max_min_fin w, le_max_left _ _, max_le (by norm_num) (min_le_left _ _)⟩
  have hadd : ∀ x : JSNum, x ≠ JSNum.nan → JSNum.add x (JSNum.fin 128) ≠ JSNum.nan := by
    intro x hx
    cases x with
    | nan => exact absurd rfl hx
    | posInf => simp [JSNum.add]
    | negInf => simp [JSNum.add]
    | fin w => exact roundToDouble_ne_nan _
  have hmul : ∀ x : JSNum, x ≠ JSNum.nan →
      JSNum.mul x (JSNum.fin (3039929748475085 / 2251799813685248)) ≠ JSNum.nan := by
    intro x hx
    cases x with
    | nan => exact absurd rfl hx
    | posInf => simp [JSNum.mul, hc', hc]
    | negInf => simp [JSNum.mul, hc', hc]
    | fin w => exact roundToDouble_ne_nan _
  have hsub : JSNum.sub y (JSNum.fin 128) ≠ JSNum.nan := by
    cases y with
    | nan => exact absurd rfl hy
    | posInf => simp [JSNum.sub, JSNum.neg, JSNum.add]
    | negInf => simp [JSNum.sub, JSNum.neg, JSNum.add]
    | fin w => exact roundToDouble_ne_nan _
  unfold contrasted
  rw [literal_135]
  exact hclamp _ (hadd _ (hmul _ hsub))

/-- A store of a number from 0 to 255 holds the nearest byte. -/
theorem toUint8Clamp_near (x : ℚ) (h0 : 0 ≤ x) (h1 : x ≤ 255) :
    toUint8Clamp (JSNum.fin x) ≤ 255 ∧ |(toUint8Clamp (JSNum.fin x) : ℚ) - x| ≤ 1 / 2 := by
  have hc : max 0 (min 255 x) = x := by
    rw [min_eq_right h1, max_eq_right h0]
  have hf0 : 0 ≤ Int.floor x := Int.floor_nonneg.mpr h0
  obtain ⟨n, hn⟩ := Int.eq_ofNat_of_zero_le hf0
  have hle : (n : ℚ) ≤ x := by
    have := Int.floor_le x
    rw [hn] at this
    exact_mod_cast this
  have hlt : x < (n : ℚ) + 1 := by
    have := Int.lt_floor_add_one x
    rw [hn] at this
    exact_mod_cast this
  have hn255 : n ≤ 255 := by
    have : (n : ℚ) ≤ 255 := le_trans hle h1
    exact_mod_cast this
  have hup : (n : ℚ) + 1 / 2 ≤ x → n + 1 ≤ 255 := by
    intro h
    have : (n : ℚ) < 255 := by linarith
    have : n < 255 := by exact_mod_cast this
    omega
  simp only [toUint8Clamp, hc, hn, Int.cast_natCast]
  have e1 : ((n : Int) + 1).toNat = n + 1 := by omega
  have e2 : (n : Int).toNat = n := by omega
  rw [e1, e2]
  split
  · rename_i h
    refine ⟨hup (le_of_lt h), ?_⟩
    rw [abs_le]
    push_cast
    constructor <;> linarith
  · rename_i h
    split
    · rename_i h'
      refine ⟨hn255, ?_⟩
      rw [abs_le]
      constructor <;> linarith
    · rename_i h'
      have heq : x = (n : ℚ) + 1 / 2 := le_antisymm (not_lt.mp h) (not_lt.mp h')
      split
      · refine ⟨hn255, ?_⟩
        rw [abs_le]
        constructor <;> linarith
      · refine ⟨hup (le_of_eq heq.symm), ?_⟩
        rw [abs_le]
        push_cast
        constructor <;> linarith

theorem luminance_bounds (R G B : Nat) (hR : R ≤ 255) (hG : G ≤ 255) (hB : B ≤ 255) :
    0 ≤ luminance R G B ∧ luminance R G B ≤ 255 := by
  have hr0 : (0 : ℚ) ≤ R := by positivity
  have hg0 : (0 : ℚ) ≤ G := by positivity
  have hb0 : (0 : ℚ) ≤ B := by positivity
  have hr : (R : ℚ) ≤ 255 := by exact_mod_cast hR
  have hg : (G : ℚ) ≤ 255 := by exact_mod_cast hG
  have hb : (B : ℚ) ≤ 255 := by exact_mod_cast hB
  unfold luminance
  constructor <;> linarith

/-- C11, as stated, fails: the code computes in binary64, not in exact
arithmetic. The pixel (128, 128, 128) has exact luminance 128 and exact
stretched value 128, but the code's `gray` and the value it writes are the
double 127.99999999999999; the pixel (4, 162, 15) has exact stretched value 87.5,
whose nearest byte (ties to even) is 88, but the code writes 87.49999999999997
and the buffer holds 87. -/
theorem contrast_transform_counterexample :
    luminance 128 128 128 = 128 ∧ contrastStretch (luminance 128 128 128) = 128 ∧
    gray (JSNum.fin 128) (JSNum.fin 128) (JSNum.fin 128) =
      JSNum.fin (9007199254740991 / 70368744177664) ∧
    contrasted (gray (JSNum.fin 128) (JSNum.fin 128) (JSNum.fin 128)) =
      JSNum.fin (9007199254740991 / 70368744177664) ∧
    numberToString (contrasted (gray (JSNum.fin 128) (JSNum.fin 128) (JSNum.fin 128))) =
      js "127.99999999999999" ∧
    contrastStretch (luminance 4 162 15) = 175 / 2 ∧
    toUint8Clamp (JSNum.fin (contrastStretch (luminance 4 162 15))) = 88 ∧
    numberToString (contrasted (gray (JSNum.fin 4) (JSNum.fin 162) (JSNum.fin 15))) =
      js "87.49999999999997" ∧
    contrastLoop [4, 162, 15, 255] = [87, 87, 87, 255] := by
  decide!


/-- C11 (contrast transform), amended. For a pixel with bytes `R`, `G`, `B`
(0 to 255) the code computes in binary64: the luminance `gray` it computes is a
finite double within `10⁻¹³` of the exact `Y = 0.299 R + 0.587 G + 0.114 B`,
which lies in `[0, 255]`; the value it writes to the three colour channels is a
finite double in `[0, 255]` within `10⁻¹²` of the exact
`clamp((Y - 128) × 1.35 + 128, 0, 255)`. Line 87 gives a value in `[0, 255]`
for every luminance that is a number, and a computed luminance of exactly 128
gives exactly 128. The loop writes that one value to the three colour channels
and leaves alpha alone; the byte the buffer then holds is the integer nearest
to the value written, at most 255. For the pixel (128, 128, 128) the computed
luminance is 127.99999999999999 and the bytes held are 128. -/
theorem contrast_transform (R G B : Nat) (hR : R ≤ 255) (hG : G ≤ 255) (hB : B ≤ 255) :
    ∃ y v : ℚ,
      gray (JSNum.fin R) (JSNum.fin G) (JSNum.fin B) = JSNum.fin y ∧
      contrasted (JSNum.fin y) = JSNum.fin v ∧
      (0 ≤ luminance R G B ∧ luminance R G B ≤ 255) ∧
      |y - luminance R G B| ≤ 1 / 10 ^ 13 ∧
      |v - contrastStretch (luminance R G B)| ≤ 1 / 10 ^ 12 ∧
      (0 ≤ v ∧ v ≤ 255) ∧
      (∀ z : JSNum, z ≠ JSNum.nan → ∃ x : ℚ, contrasted z = JSNum.fin x ∧ 0 ≤ x ∧ x ≤ 255) ∧
      contrasted (JSNum.fin 128) = JSNum.fin 128 ∧
      (y = 128 → v = 128) ∧
      (∀ (A : Nat) (rest : List Nat), contrastLoop (R :: G :: B :: A :: rest) =
        toUint8Clamp (JSNum.fin v) :: toUint8Clamp (JSNum.fin v) ::
          toUint8Clamp (JSNum.fin v) :: A :: contrastLoop rest) ∧
      toUint8Clamp (JSNum.fin v) ≤ 255 ∧
      |(toUint8Clamp (JSNum.fin v) : ℚ) - v| ≤ 1 / 2 ∧
      numberToString (gray (JSNum.fin 128) (JSNum.fin 128) (JSNum.fin 128)) =
        js "127.99999999999999" ∧
      contrastLoop [128, 128, 128, 255] = [128, 128, 128, 255] := by
  obtain ⟨y, hy, ey⟩ := gray_err R G B hR hG hB
  have hl := luminance_bounds R G B hR hG hB
  obtain ⟨v, hv, hv0, hv1, ev⟩ := contrasted_err y (luminance R G B) hl.1 hl.2 ey
  have hmid : contrasted (JSNum.fin 128) = JSNum.fin 128 := by decide!
  have hnear := toUint8Clamp_near v hv0 hv1
  refine ⟨y, v, hy, hv, hl, ey, ev, ⟨hv0, hv1⟩, contrasted_range, hmid, ?_, ?_, hnear.1,
    hnear.2, by decide!, by decide!⟩
  · intro h
    rw [h, hmid] at hv
    exact (JSNum.fin.inj hv).symm
  · intro A rest
    simp only [contrastLoop, contrastByte, channelValue, hy, hv]

/-- C11, at the pixel (4, 162, 15). -/
theorem contrast_transform_witness :
    ∃ y v : ℚ,
      gray (JSNum.fin ((4 : Nat) : ℚ)) (JSNum.fin ((162 : Nat) : ℚ))
        (JSNum.fin ((15 : Nat) : ℚ)) = JSNum.fin y ∧
      contrasted (JSNum.fin y) = JSNum.fin v ∧
      |v - contrastStretch (luminance ((4 : Nat) : ℚ) ((162 : Nat) : ℚ) ((15 : Nat) : ℚ))| ≤
        1 / 10 ^ 12 ∧
      toUint8Clamp (JSNum.fin v) ≤ 255 := by
  obtain ⟨y, v, h1, h2, _, _, h5, _, _, _, _, _, h11, _⟩ :=
    contrast_transform 4 162 15 (by decide) (by decide) (by decide)
  exact ⟨y, v, h1, h2, h5, h11⟩

end Ambagas
